import Mathlib

/-!
Shallow embedding of the column-mapping and phone-normalization core of the
automacao_listas repository (src/utils.py, src/data_cleaning.py,
src/data_ingestion.py), together with theorems settling the frozen claims
about the natural-language specification.

Conventions of the embedding:
- A pandas cell value is a `Val`: either the missing marker `Val.na`
  (numpy NaN) or a string `Val.s v`.  Python str(np.nan) renders as "nan".
- Fallible cleaning functions return `Option String` (`none` = np.nan).
- Python string primitives (strip, isdigit filtering, lower, startswith,
  endswith, slicing, substring test) are modelled by executable char-list
  functions so that every definition evaluates inside the kernel.
- Floating-point score arithmetic of the fuzzy column matcher is modelled
  with exact rationals; the similarity ratio of the external difflib
  sequence matcher (Python standard library, not part of src/) is a
  parameter of the embedding, constrained to the interval [0,1].
-/
/-- A pandas cell value: NaN or a string. -/
inductive Val where
  | na : Val
  | s (v : String) : Val
deriving DecidableEq, Repr

/-- Python str(value) for a cell: str(np.nan) renders as "nan". -/
def strOfVal : Val → String
  | Val.na => "nan"
  | Val.s v => v

/-- pd.isna on a cell. -/
def isNaVal : Val → Bool
  | Val.na => true
  | Val.s _ => false

/-- Left strip of a char list (Python str.lstrip half of strip). -/
def stripLChars (l : List Char) : List Char := l.dropWhile Char.isWhitespace

/-- Right strip of a char list. -/
def stripRChars (l : List Char) : List Char :=
  (l.reverse.dropWhile Char.isWhitespace).reverse

/-- Python str.strip(): remove whitespace from both ends. -/
def pyStrip (s : String) : String := String.mk (stripRChars (stripLChars s.data))

/-- Python ''.join(filter(str.isdigit, s)): keep only digit characters. -/
def pyDigits (s : String) : String := String.mk (s.data.filter Char.isDigit)

/-- Character count of a string (Python len). -/
def strLen (s : String) : Nat := s.data.length

/-- Python s[n:]: drop the first n characters. -/
def strDropL (s : String) (n : Nat) : String := String.mk (s.data.drop n)

/-- Python s[:-n]: drop the last n characters. -/
def strDropR (s : String) (n : Nat) : String := String.mk (s.data.take (s.data.length - n))

/-- Prefix test on char lists. -/
def chPre : List Char → List Char → Bool
  | [], _ => true
  | _ :: _, [] => false
  | p :: ps, c :: cs => p = c && chPre ps cs

/-- Python s.startswith(p). -/
def strStarts (s p : String) : Bool := chPre p.data s.data

/-- Python s.endswith(p). -/
def strEnds (s p : String) : Bool := chPre p.data.reverse s.data.reverse

/-- Substring occurrence on char lists: needle occurs somewhere in hay. -/
def chSub (needle : List Char) : List Char → Bool
  | [] => chPre needle []
  | c :: cs => chPre needle (c :: cs) || chSub needle cs

/-- Python needle in hay (substring containment). -/
def strIn (needle hay : String) : Bool := chSub needle.data hay.data

/-- ASCII lower-casing of a character (Python str.lower on ASCII data). -/
def lowerChar (c : Char) : Char :=
  if 'A' ≤ c && c ≤ 'Z' then Char.ofNat (c.toNat + 32) else c

/-- Python s.lower(). -/
def strLower (s : String) : String := String.mk (s.data.map lowerChar)

/-- utils.clean_phone_number (the second, overriding definition,
src/utils.py lines 221-260): after the NaN/blank guard, strips a trailing
".0" float artifact, keeps only digits; with preserve_full it returns all
digits when there are at least 10; otherwise it returns the last 11 digits
(when 11 or more), all 10 digits (exactly 10), or NaN. -/
def clean_phone_number (numberStr : Val) (preserveFull : Bool) : Option String :=
  if isNaVal numberStr || pyStrip (strOfVal numberStr) = "" then none
  else
    let sVal := pyStrip (strOfVal numberStr)
    let sVal := if strEnds sVal ".0" then strDropR sVal 2 else sVal
    let digits := pyDigits sVal
    if preserveFull then
      if 10 ≤ strLen digits then some digits else none
    else
      if 11 ≤ strLen digits then some (strDropL digits (strLen digits - 11))
      else if strLen digits = 10 then some digits
      else none

/-- The raw digit-strip fallback inside format_phone_for_whatsapp_business
(src/utils.py lines 172-175): digits of str(phone_str), or NaN if empty. -/
def fmtFallbackDigits (phoneStr : Val) : Option String :=
  let digits := pyDigits (strOfVal phoneStr)
  if digits = "" then none else some digits

/-- The cleaned value used by format_phone_for_whatsapp_business
(src/utils.py lines 169-177): preserve-full cleaning, with fallback to the
raw digit strip. -/
def fmtPhoneClean (phoneStr : Val) : Option String :=
  match clean_phone_number phoneStr true with
  | none => fmtFallbackDigits phoneStr
  | some c => if c = "" then fmtFallbackDigits phoneStr else some c

/-- Branch logic of format_phone_for_whatsapp_business after a non-empty
cleaned value has been obtained (src/utils.py lines 178-218). -/
def fmtBody (defaultCountryCode : String) (includeCountryCode : Bool)
    (phoneClean : String) : String × String :=
  if strLen phoneClean < 10 then ("", "VAZIO")
  else if !includeCountryCode then
    if strStarts phoneClean "55" && decide (12 ≤ strLen phoneClean) then
      (strDropL phoneClean 2, "OK (Sem +55)")
    else
      (phoneClean, "OK (Sem +55)")
  else
    if strStarts phoneClean "55" && decide (12 ≤ strLen phoneClean) then
      ("+" ++ phoneClean, "OK")
    else if strLen phoneClean = 10 || strLen phoneClean = 11 then
      (defaultCountryCode ++ phoneClean, "CORRIGIDO (+55)")
    else
      if !strStarts phoneClean "55" then
        (defaultCountryCode ++ phoneClean, "INCERTO")
      else
        ("+" ++ phoneClean, "INCERTO")

/-- utils.format_phone_for_whatsapp_business (src/utils.py lines 156-218):
returns (formatted number, status message). -/
def format_phone_for_whatsapp_business (phoneStr : Val) (defaultCountryCode : String)
    (includeCountryCode : Bool) : String × String :=
  if isNaVal phoneStr || pyStrip (strOfVal phoneStr) = "" then ("", "VAZIO")
  else
    match fmtPhoneClean phoneStr with
    | none => ("", "VAZIO")
    | some phoneClean => fmtBody defaultCountryCode includeCountryCode phoneClean

/-- Spec-side definition (follows the wording of spec section 4.2,
strip-to-digits): strip, remove the trailing ".0" float artifact, keep
only digit characters. -/
def stripToDigits (v : Val) : String :=
  let sVal := pyStrip (strOfVal v)
  let sVal := if strEnds sVal ".0" then strDropR sVal 2 else sVal
  pyDigits sVal

/-! ### The canonical-table pipeline of clean_and_filter_data
(src/data_cleaning.py).  The rows are modelled after the column-mapping
step, for the standard call with essential_cols = FULL_EXTRACTION_COLS
(the only call in the repository, src/report_generator.py line 273), in
which all canonical columns below exist in the processed frame. -/
/-- Fixed output column order (src/data_cleaning.py lines 11-14). -/
def FIXED_OUTPUT_ORDER : List String :=
  ["Razao", "Logradouro", "Numero", "Bairro", "Cidade", "UF", "NOME", "Whats", "CEL"]

/-- Full extraction column set (src/data_cleaning.py lines 17-21). -/
def FULL_EXTRACTION_COLS : List String :=
  ["Razao", "Logradouro", "Numero", "Bairro", "Cidade", "UF", "CEP", "CNPJ",
   "SOCIO1Nome", "SOCIO1Celular1", "SOCIO1Celular2",
   "NOME", "Whats", "CEL", "DDD", "FONE"]

/-- A processed row entering the final-formatting part of
clean_and_filter_data (line 276 onward), restricted to the columns that
those stages read or write. -/
structure MidRow where
  razao : Val
  logradouro : Val
  numero : Val
  bairro : Val
  cidade : Val
  uf : Val
  nome : Val
  whats : Val
  cel : Val
  socio1nome : Val
  socio1cel1 : Val
  socio1cel2 : Val
deriving DecidableEq, Repr

/-- A row of the final canonical table (FIXED_OUTPUT_ORDER columns; all
text columns were stringified and stripped, Numero was not). -/
structure OutRow where
  razao : String
  logradouro : String
  numero : Val
  bairro : String
  cidade : String
  uf : String
  nome : String
  whats : String
  cel : String
deriving DecidableEq, Repr

/-- The lambda applied by the centralized formatting stage
(src/data_cleaning.py lines 281, 283, 285, 287): the DDI formatter with
its default arguments (default_country_code="+55",
include_country_code=True), keeping only the formatted component. -/
def formatPhoneCell (x : Val) : String := (format_phone_for_whatsapp_business x "+55" true).1

/-- Centralized phone-formatting stage (src/data_cleaning.py lines
280-287): the four phone-bearing canonical columns are replaced by the
formatted strings. -/
def formatStage (r : MidRow) : MidRow :=
  { r with socio1cel1 := Val.s (formatPhoneCell r.socio1cel1),
           socio1cel2 := Val.s (formatPhoneCell r.socio1cel2),
           whats := Val.s (formatPhoneCell r.whats),
           cel := Val.s (formatPhoneCell r.cel) }

/-- pandas replace of whitespace-only strings by NaN
(src/data_cleaning.py lines 357-360). -/
def blankToNa (v : Val) : Val :=
  match v with
  | Val.na => Val.na
  | Val.s s => if pyStrip s = "" then Val.na else Val.s s

/-- pandas Series.fillna on a single cell. -/
def fillNa (a b : Val) : Val :=
  match a with
  | Val.na => b
  | Val.s s => Val.s s

/-- Unification stage (src/data_cleaning.py lines 353-369): blank cells
become NaN, then NOME/Whats/CEL are filled from
SOCIO1Nome/SOCIO1Celular1/SOCIO1Celular2. -/
def unifyStage (r : MidRow) : MidRow :=
  let r' := { r with nome := blankToNa r.nome, whats := blankToNa r.whats,
                     cel := blankToNa r.cel, socio1nome := blankToNa r.socio1nome,
                     socio1cel1 := blankToNa r.socio1cel1, socio1cel2 := blankToNa r.socio1cel2 }
  { r' with nome := fillNa r'.nome r'.socio1nome,
            whats := fillNa r'.whats r'.socio1cel1,
            cel := fillNa r'.cel r'.socio1cel2 }

/-- Row filter (src/data_cleaning.py lines 373-374): drop rows whose
Whats is the empty string, then rows whose Whats is NaN. -/
def filterStage (rows : List MidRow) : List MidRow :=
  (rows.filter (fun r => r.whats ≠ Val.s "")).filter (fun r => isNaVal r.whats = false)

/-- drop_duplicates(subset=["Whats"], keep='first')
(src/data_cleaning.py line 378). -/
def dedupByWhatsAux : List Val → List MidRow → List MidRow
  | _, [] => []
  | seen, r :: rs =>
    if r.whats ∈ seen then dedupByWhatsAux seen rs
    else r :: dedupByWhatsAux (r.whats :: seen) rs

/-- Deduplication by the Whats key, keeping the first occurrence. -/
def dedupByWhats (rows : List MidRow) : List MidRow := dedupByWhatsAux [] rows

/-- fillna('') followed by astype(str).str.strip() on a text cell
(src/data_cleaning.py lines 381-383). -/
def strFill (v : Val) : String :=
  match v with
  | Val.na => ""
  | Val.s s => pyStrip s

/-- Final text cleanup and projection onto FIXED_OUTPUT_ORDER
(src/data_cleaning.py lines 381-392; the text-column list excludes
Numero, which keeps its raw cell). -/
def stripStage (r : MidRow) : OutRow :=
  { razao := strFill r.razao, logradouro := strFill r.logradouro, numero := r.numero,
    bairro := strFill r.bairro, cidade := strFill r.cidade, uf := strFill r.uf,
    nome := strFill r.nome, whats := strFill r.whats, cel := strFill r.cel }

/-- sort_values(by=["Bairro", "Razao"], ascending=True)
(src/data_cleaning.py lines 395-397): the lexicographic (Bairro, Razao)
order; the sort itself is modelled as an insertion sort (any sorting
permutation; pandas quicksort is unstable, so only the permutation and
the order key are contractual). -/
def outRel (a b : OutRow) : Prop :=
  a.bairro < b.bairro ∨ (a.bairro = b.bairro ∧ a.razao ≤ b.razao)

instance : DecidableRel outRel := fun a b => by
  unfold outRel
  infer_instance

/-- The tail of clean_and_filter_data (src/data_cleaning.py lines
276-404) from the centralized phone formatting to the returned table. -/
def cleanPipeline (rows : List MidRow) : List OutRow :=
  ((dedupByWhats (filterStage (rows.map (fun r => unifyStage (formatStage r))))).map
    stripStage).insertionSort outRel

/-! ### Whitespace-free strings and formatter outputs -/
/-- All characters of the string are non-whitespace. -/
def noWsStr (s : String) : Prop := ∀ c ∈ s.data, c.isWhitespace = false

/-! ### Invariants of the Whats column through the pipeline -/
/-- The Whats cell after formatting and unification: NaN, or a non-empty
string invariant under stripping. -/
def goodVal (v : Val) : Prop := v = Val.na ∨ ∃ s, v = Val.s s ∧ s ≠ "" ∧ pyStrip s = s

/-- Concrete three-row input used to witness the pipeline claims. -/
def rowsW3 : List MidRow :=
  [{ razao := Val.s "B", logradouro := Val.na, numero := Val.na, bairro := Val.s "X",
     cidade := Val.na, uf := Val.na, nome := Val.na, whats := Val.s "67981783902",
     cel := Val.na, socio1nome := Val.s "JOAO", socio1cel1 := Val.na, socio1cel2 := Val.na },
   { razao := Val.s "A", logradouro := Val.na, numero := Val.na, bairro := Val.s "X",
     cidade := Val.na, uf := Val.na, nome := Val.na, whats := Val.s "6798178-3902",
     cel := Val.na, socio1nome := Val.na, socio1cel1 := Val.na, socio1cel2 := Val.na },
   { razao := Val.s "C", logradouro := Val.na, numero := Val.na, bairro := Val.s "X",
     cidade := Val.na, uf := Val.na, nome := Val.na, whats := Val.na,
     cel := Val.na, socio1nome := Val.na, socio1cel1 := Val.na, socio1cel2 := Val.na }]

/-- The single canonical row the pipeline produces from rowsW3. -/
def outW3 : OutRow :=
  { razao := "B", logradouro := "", numero := Val.na, bairro := "X", cidade := "",
    uf := "", nome := "JOAO", whats := "+5567981783902", cel := "" }

/-! ### Format-B (Lemit-like) phone reconstruction, src/data_cleaning.py
lines 40-47 and 201-261 -/
/-- data_cleaning._clean_phone_number (src/data_cleaning.py lines 40-47):
strips to digits with NO length validation; NaN only when the input is
NaN/blank or has no digit at all. -/
def dcClean (numberStr : Val) : Option String :=
  if isNaVal numberStr || pyStrip (strOfVal numberStr) = "" then none
  else
    let cleaned := pyDigits (strOfVal numberStr)
    if cleaned = "" then none else some cleaned

/-- A raw input row (pandas row from df.iterrows): column name to cell,
with none for an absent column. -/
def RawRow : Type := String → Option Val

/-- str(row.get(col, '')).strip() (src/data_cleaning.py lines 213-215). -/
def cellStr (row : RawRow) (col : String) : String :=
  pyStrip (match row col with
           | none => ""
           | some v => strOfVal v)

/-- DDD / DDD.i column names (src/data_cleaning.py lines 209-211). -/
def dddCol (i : Nat) : String := if i = 0 then "DDD" else "DDD." ++ toString i

/-- FONE / FONE.i column names. -/
def foneCol (i : Nat) : String := if i = 0 then "FONE" else "FONE." ++ toString i

/-- CEL / CEL.i column names. -/
def celCol (i : Nat) : String := if i = 0 then "CEL" else "CEL." ++ toString i

/-- One guarded candidate append (the repeated pattern of
src/data_cleaning.py lines 219-245): when the guard holds, clean the
candidate and append it if valid and non-empty. -/
def tryPhone (cond : Prop) [Decidable cond] (v : Val) (acc : List String) : List String :=
  if cond then
    match dcClean v with
    | some p => if p ≠ "" then acc ++ [p] else acc
    | none => acc
  else acc

/-- Candidate accumulation for a single variant index i
(src/data_cleaning.py lines 208-245): DDD+FONE, then DDD+CEL, then FONE
alone (no DDD), then CEL alone (no DDD). -/
def stepPhones (row : RawRow) (i : Nat) (acc : List String) : List String :=
  tryPhone (cellStr row (dddCol i) = "" ∧ cellStr row (celCol i) ≠ "")
    (Val.s (cellStr row (celCol i)))
    (tryPhone (cellStr row (dddCol i) = "" ∧ cellStr row (foneCol i) ≠ "")
      (Val.s (cellStr row (foneCol i)))
      (tryPhone (cellStr row (dddCol i) ≠ "" ∧ cellStr row (celCol i) ≠ "")
        (Val.s (cellStr row (dddCol i) ++ cellStr row (celCol i)))
        (tryPhone (cellStr row (dddCol i) ≠ "" ∧ cellStr row (foneCol i) ≠ "")
          (Val.s (cellStr row (dddCol i) ++ cellStr row (foneCol i))) acc)))

/-- The per-row scan over variant indices 0..7, stopping once at least 2
phones have been accumulated (src/data_cleaning.py lines 205-248). -/
def collectLoop (row : RawRow) : Nat → Nat → List String → List String
  | 0, _, acc => acc
  | n + 1, i, acc =>
    let acc' := stepPhones row i acc
    if 2 ≤ acc'.length then acc'
    else collectLoop row n (i + 1) acc'

/-- All phones accumulated for a row by the Format-B reconstruction. -/
def collectPhones (row : RawRow) : List String := collectLoop row 8 0 []

/-- Primary phone slot assignment (src/data_cleaning.py lines 251-255). -/
def primarySlot (essentialCols : List String) (phones : List String) :
    Option (String × String) :=
  match phones with
  | [] => none
  | p :: _ =>
    if "SOCIO1Celular1" ∈ essentialCols then some ("SOCIO1Celular1", p)
    else if "Whats" ∈ essentialCols then some ("Whats", p)
    else none

/-- Secondary phone slot assignment (src/data_cleaning.py lines 257-261). -/
def secondarySlot (essentialCols : List String) (phones : List String) :
    Option (String × String) :=
  match phones with
  | _ :: p :: _ =>
    if "SOCIO1Celular2" ∈ essentialCols then some ("SOCIO1Celular2", p)
    else if "CEL" ∈ essentialCols then some ("CEL", p)
    else none
  | _ => none

/-- Row with a 1-digit DDD and 2-digit FONE. -/
def rowB1 : RawRow := fun c =>
  if c = "DDD" then some (Val.s "1")
  else if c = "FONE" then some (Val.s "23")
  else none

/-- Row that accumulates three (equal) phones before the early stop. -/
def rowB2 : RawRow := fun c =>
  if c = "FONE" then some (Val.s "11987654321")
  else if c = "DDD.1" then some (Val.s "11")
  else if c = "FONE.1" then some (Val.s "987654321")
  else if c = "CEL.1" then some (Val.s "987654321")
  else none

/-! ### Person fallback (src/data_cleaning.py lines 292-346) -/
/-- The four fallback fields (src/data_cleaning.py lines 295-300). -/
def SOCIO_FIELDS : List (String × String × String) :=
  [("Nome", "SOCIO1Nome", "SOCIO2Nome"),
   ("Celular1", "SOCIO1Celular1", "SOCIO2Celular1"),
   ("Celular2", "SOCIO1Celular2", "SOCIO2Celular2"),
   ("CPF", "SOCIO1CPF", "SOCIO2CPF")]

/-- data_cleaning._is_valid_cpf (src/data_cleaning.py lines 73-78) on the
stringified value: exactly 11 digits. -/
def isValidCpf (s : String) : Bool := decide (strLen (pyDigits s) = 11)

/-- _is_field_valid (src/data_cleaning.py lines 302-307). -/
def isFieldValid (fieldName : String) (v : Val) : Bool :=
  if isNaVal v || decide (pyStrip (strOfVal v) = "") then false
  else if fieldName = "CPF" then isValidCpf (strOfVal v)
  else true

/-- row.get(col, np.nan) on the processed frame: NaN when the column is
not among the processed (essential) columns. -/
def procGet (cols : List String) (row : String → Val) (c : String) : Val :=
  if c ∈ cols then row c else Val.na

/-- One iteration of the fallback field loop (src/data_cleaning.py lines
313-331), reading from the row snapshot and writing into the updated row;
the Boolean is socio1_has_any_valid_data. -/
def socioFieldStep (cols : List String) (origRow : String → Val)
    (st : (String → Val) × Bool) (fld : String × String × String) :
    (String → Val) × Bool :=
  if isFieldValid fld.1 (procGet cols origRow fld.2.1) = false then
    if isFieldValid fld.1 (procGet cols origRow fld.2.2) = true then
      if fld.2.1 ∈ cols then
        (fun c => if c = fld.2.1 then procGet cols origRow fld.2.2 else st.1 c, true)
      else st
    else
      if fld.2.1 ∈ cols then
        (fun c => if c = fld.2.1 then Val.na else st.1 c, st.2)
      else st
  else (st.1, true)

/-- Fallback pass over one processed row (src/data_cleaning.py lines
310-336); the Boolean result decides whether the row is kept. -/
def fallbackRow (cols : List String) (row : String → Val) : (String → Val) × Bool :=
  SOCIO_FIELDS.foldl (socioFieldStep cols row) (row, false)

/-- A processed row whose four primary fields are all missing while the
underlying file has a valid secondary name. -/
def rowC6 : String → Val := fun c =>
  if c = "SOCIO2Nome" then Val.s "MARIA" else Val.na

/-- Expected-column set that also extracts the secondary name. -/
def colsC6W : List String := FULL_EXTRACTION_COLS ++ ["SOCIO2Nome"]

/-! ### Structure detection (src/data_ingestion.py lines 98-164) -/
/-- Modelled from the spec: the diacritic-stripping step of
normalize_colname (unicodedata NFKD plus removal of combining marks,
src/data_cleaning.py lines 23-28).  It is the identity on ASCII data,
which covers every detection marker; arbitrary Unicode decomposition
tables are outside the embedding. -/
def stripDiacritics (s : String) : String := s

/-- data_cleaning.normalize_colname (src/data_cleaning.py lines 23-28):
strip accents, remove spaces, lowercase. -/
def normalize_colname (s : String) : String :=
  strLower (String.mk ((stripDiacritics s).data.filter (fun c => c ≠ ' ')))

/-- ASSERTIVA_ESSENTIAL_COLS (src/data_ingestion.py lines 6-9). -/
def ASSERTIVA_ESSENTIAL_COLS : List String :=
  ["Razao", "Logradouro", "Numero", "Bairro", "Cidade", "UF", "CEP",
   "SOCIO1Nome", "SOCIO1Celular1", "SOCIO1Celular2"]

/-- LEMIT_ESSENTIAL_COLS (src/data_ingestion.py lines 11-13). -/
def LEMIT_ESSENTIAL_COLS : List String := ["NOME", "Whats", "CEL", "DDD", "FONE"]

/-- Lemit phone marker columns (src/data_ingestion.py line 141). -/
def lemitPhoneMarkers : List String := ["Whats", "CEL", "FONE", "DDD", "Telefone", "Celular"]

/-- The structure-detection heuristic of load_data
(src/data_ingestion.py lines 126-161), on the table's column names. -/
def detectStructure (cols : List String) : String :=
  let norm := cols.map normalize_colname
  let hasPossuiWhatsapp := decide (normalize_colname "POSSUI-WHATSAPP" ∈ norm)
  let hasNome := decide (normalize_colname "NOME" ∈ norm)
  let hasLemitPhone := lemitPhoneMarkers.any (fun c => decide (normalize_colname c ∈ norm))
  let isLemitRobust := hasPossuiWhatsapp || (hasNome && hasLemitPhone)
  let hasRazao := decide (normalize_colname "Razao" ∈ norm)
  let assertivaMarkers := ASSERTIVA_ESSENTIAL_COLS.filter
    (fun c => decide (c ∉ (["Razao", "SOCIO1Nome"] : List String)))
  let presentAssertivaMarkers :=
    (assertivaMarkers.filter (fun c => decide (normalize_colname c ∈ norm))).length
  let isAssertivaRobust := (hasRazao || hasNome) && decide (3 ≤ presentAssertivaMarkers)
  if isLemitRobust then "Lemit"
  else if isAssertivaRobust then "Assertiva"
  else "Desconhecida"

/-! ### Fuzzy column matcher (utils.best_match_column, src/utils.py lines
280-336).  Python float score arithmetic is modelled by exact fraction
arithmetic: `Frac` is an unnormalized numerator/denominator pair whose
operations are kernel-executable, interpreted in ℚ through Frac.toRat.
The difflib.SequenceMatcher ratio is external library code (Python
standard library, not under src/); the scoring is parameterized over any
similarity function, and the claim proofs assume only the [0,1] bounds
the spec states for it. -/
/-- Exact fraction with executable arithmetic (no gcd normalization). -/
structure Frac where
  num : Int
  den : Nat
deriving DecidableEq, Repr

/-- Embed an integer. -/
def Frac.ofInt (n : Int) : Frac := ⟨n, 1⟩

/-- Fraction addition. -/
def Frac.add (a b : Frac) : Frac := ⟨a.num * b.den + b.num * a.den, a.den * b.den⟩

/-- Fraction subtraction. -/
def Frac.sub (a b : Frac) : Frac := ⟨a.num * b.den - b.num * a.den, a.den * b.den⟩

/-- Multiplication by an integer. -/
def Frac.mulInt (n : Int) (a : Frac) : Frac := ⟨n * a.num, a.den⟩

/-- Division by a natural number. -/
def Frac.divNat (a : Frac) (n : Nat) : Frac := ⟨a.num, a.den * n⟩

/-- Strict comparison by cross multiplication. -/
def Frac.blt (a b : Frac) : Bool := decide (a.num * b.den < b.num * a.den)

/-- Non-strict comparison by cross multiplication. -/
def Frac.ble (a b : Frac) : Bool := decide (a.num * b.den ≤ b.num * a.den)

/-- Interpretation in ℚ. -/
def Frac.toRat (a : Frac) : ℚ := (a.num : ℚ) / (a.den : ℚ)

/-- Length of the longest common prefix of two char lists. -/
def lcpLen : List Char → List Char → Nat
  | a :: as, b :: bs => if a = b then 1 + lcpLen as bs else 0
  | _, _ => 0

/-- Modelled from the spec: the sequence-similarity ratio of the external
difflib sequence matcher, described as an edit-distance-based similarity
in [0,1]; modelled as the common-prefix ratio 2*lcp/(|a|+|b|) (1 for two
empty strings, as difflib returns).  Claim proofs rely only on the [0,1]
bounds, which difflib ratio also satisfies. -/
def seqRatioModel (a b : String) : Frac :=
  if a.data.length + b.data.length = 0 then Frac.ofInt 1
  else (Frac.ofInt (2 * (lcpLen a.data b.data : Int))).divNat (a.data.length + b.data.length)

/-- Whitespace split of a char list, dropping empty tokens (Python
str.split()). -/
def chSplit (cur : List Char) : List Char → List String
  | [] => if cur = [] then [] else [String.mk cur.reverse]
  | c :: cs =>
    if c = ' ' then
      if cur = [] then chSplit [] cs else String.mk cur.reverse :: chSplit [] cs
    else chSplit (c :: cur) cs

/-- Alnum tokenization (src/utils.py lines 298 and 313): non-alphanumeric
characters become spaces, then split. -/
def pyTokens (s : String) : List String :=
  chSplit [] (s.data.map (fun c => if c.isAlphanum then c else ' '))

/-- Token set of a string. -/
def tokSet (s : String) : Finset String := (pyTokens s).toFinset

/-- Score of one (candidate, column) pair, both already lowercased
(src/utils.py lines 300-328): equality 120, substring 80, Jaccard token
overlap x40, similarity ratio x40, minus 0.01 per column-name char. -/
def pairScore (ratio : String → String → Frac) (candL colL : String) : Frac :=
  ((((if colL = candL then Frac.ofInt 120 else Frac.ofInt 0).add
    (if strIn candL colL || strIn colL candL then Frac.ofInt 80 else Frac.ofInt 0)).add
    (if (tokSet candL).Nonempty ∧ (tokSet colL).Nonempty then
       (if ((tokSet candL) ∪ (tokSet colL)).Nonempty then
          (Frac.ofInt (40 * (((tokSet candL) ∩ (tokSet colL)).card : Int))).divNat
            (((tokSet candL) ∪ (tokSet colL)).card)
        else Frac.ofInt 0)
     else Frac.ofInt 0)).add
    (Frac.mulInt 40 (ratio candL colL))).sub
    ((Frac.ofInt (strLen colL : Int)).divNat 100)

/-- Inner loop body of best_match_column (src/utils.py lines 300-332):
keep the best (column, score) so far, updating on strictly greater
scores. -/
def bmInner (ratio : String → String → Frac) (candL : String) (a : String × Frac)
    (col : String) : String × Frac :=
  if a.2.blt (pairScore ratio candL (strLower col)) then
    (col, pairScore ratio candL (strLower col))
  else a

/-- Outer loop body: skip empty candidates, otherwise scan all columns. -/
def bmStep (ratio : String → String → Frac) (cols : List String) (acc : String × Frac)
    (cand : String) : String × Frac :=
  if cand = "" then acc else cols.foldl (bmInner ratio (strLower cand)) acc

/-- utils.best_match_column (the second, overriding definition,
src/utils.py lines 280-336). -/
def best_match_column (ratio : String → String → Frac) (dfColumns : List String)
    (candidates : List String) (minScore : Frac) : String :=
  if dfColumns = [] then ""
  else
    let best := candidates.foldl (bmStep ratio dfColumns) ("", Frac.ofInt 0)
    if minScore.ble best.2 then best.1 else ""

/-- The Jaccard addend of pairScore. -/
def jacTerm (candL colL : String) : Frac :=
  if (tokSet candL).Nonempty ∧ (tokSet colL).Nonempty then
    (if ((tokSet candL) ∪ (tokSet colL)).Nonempty then
       (Frac.ofInt (40 * (((tokSet candL) ∩ (tokSet colL)).card : Int))).divNat
         (((tokSet candL) ∪ (tokSet colL)).card)
     else Frac.ofInt 0)
  else Frac.ofInt 0

/-! ### Agendor error-report reconciliation (utils.process_agendor_report,
src/utils.py lines 395-494) -/
/-- A table: column names plus rows, each row a map from column name to
cell value. -/
structure PTable where
  cols : List String
  rows : List (String → Val)

/-- The stats dictionary of process_agendor_report
(src/utils.py lines 410-417). -/
structure AgendorStats where
  original_total : Nat
  error_total : Nat
  duplicates_removed : Nat
  auto_fixed : Nat
  manual_fix_needed : Nat
  safe_total : Nat
deriving DecidableEq, Repr

/-- The phone match key of a cell (src/utils.py lines 431-433):
formatted without country code, with sentinel MISSING for empties. -/
def agendorKey (v : Val) : String :=
  let c := (format_phone_for_whatsapp_business v "+55" false).1
  if c = "" then "MISSING" else c

/-- Duplicate-indicating substrings (src/utils.py line 449). -/
def dupTerms : List String := ["duplicidade", "duplicate", "já existe", "cadastrado"]

/-- Whether an error row's reason text marks a duplicate
(src/utils.py lines 447-451). -/
def isDupReason (reasonCol : String) (r : String → Val) : Bool :=
  dupTerms.any (fun t => strIn t (strLower (strOfVal (r reasonCol))))

/-- utils.process_agendor_report (src/utils.py lines 395-494): returns
(safe rows, manual-fix rows, stats). -/
def process_agendor_report (ratio : String → String → Frac) (dfO dfE : PTable) :
    List (String → Val) × List (String → Val) × AgendorStats :=
  let stats0 : AgendorStats :=
    { original_total := dfO.rows.length, error_total := dfE.rows.length,
      duplicates_removed := 0, auto_fixed := 0, manual_fix_needed := 0, safe_total := 0 }
  let reasonCol := best_match_column ratio dfE.cols
    ["Motivo", "Erro", "Reason", "Status", "Importação"] (Frac.ofInt 50)
  let colWhatsOrig := best_match_column ratio dfO.cols
    ["WhatsApp", "Whats", "Celular", "Phone"] (Frac.ofInt 50)
  let colWhatsErr := best_match_column ratio dfE.cols
    ["WhatsApp", "Whats", "Celular", "Phone"] (Frac.ofInt 50)
  if colWhatsOrig = "" ∨ colWhatsErr = "" then
    (dfO.rows, [], stats0)
  else
    let keyO := fun (r : String → Val) => agendorKey (r colWhatsOrig)
    let keyE := fun (r : String → Val) => agendorKey (r colWhatsErr)
    let isDup := fun (r : String → Val) =>
      if reasonCol ≠ "" then isDupReason reasonCol r else false
    let keysDuplicates := (((dfE.rows.filter (fun r => isDup r)).map keyE).dedup).filter
      (fun k => k ≠ "MISSING")
    let keysErrorsOther := (((dfE.rows.filter (fun r => !(isDup r))).map keyE).dedup).filter
      (fun k => k ≠ "MISSING")
    let allErrorKeys := ((dfE.rows.map keyE).dedup).filter (fun k => k ≠ "MISSING")
    let dfSafe := dfO.rows.filter (fun r => !(keyO r ∈ allErrorKeys))
    let dfFix0 := dfO.rows.filter (fun r => keyO r ∈ keysErrorsOther ∧ keyO r ≠ "MISSING")
    let reasonOf := fun (k : String) =>
      match dfE.rows.find? (fun r => keyE r = k) with
      | some r => r reasonCol
      | none => Val.na
    let dfFix := if reasonCol ≠ "" then
        dfFix0.map (fun r => fun c => if c = "MOTIVO_ERRO" then reasonOf (keyO r) else r c)
      else dfFix0
    let stats := { stats0 with
      duplicates_removed := keysDuplicates.length
      manual_fix_needed := dfFix.length
      safe_total := dfSafe.length }
    (dfSafe, dfFix, stats)

/-- Original table whose only column matches no phone-like candidate. -/
def dfOC9 : PTable := ⟨["z9"], [fun _ => Val.na]⟩

/-- Error table with the same non-phone column and no rows. -/
def dfEC9 : PTable := ⟨["z9"], []⟩

example : clean_phone_number (Val.s "67981783902.0") false = some "67981783902" := by decide

example : clean_phone_number (Val.s " (67) 9817-8390-2 ") false = some "67981783902" := by decide

example : clean_phone_number (Val.s "123456789") false = none := by decide

example : format_phone_for_whatsapp_business (Val.s "67981783902") "+55" true
    = ("+5567981783902", "CORRIGIDO (+55)") := by decide

example : format_phone_for_whatsapp_business (Val.s "556798178390") "+55" true
    = ("+556798178390", "OK") := by decide

example : format_phone_for_whatsapp_business (Val.s "123") "+55" true = ("", "VAZIO") := by decide

example : format_phone_for_whatsapp_business Val.na "+55" false = ("", "VAZIO") := by decide

example : format_phone_for_whatsapp_business (Val.s "5567981783902") "+55" false
    = ("67981783902", "OK (Sem +55)") := by decide

/-! ### Generic string lemmas used by the claim proofs -/
theorem strAppend_data (a b : String) : (a ++ b).data = a.data ++ b.data := by
  cases a; cases b; rfl

theorem str_ne_empty_of_len {s : String} (h : 0 < strLen s) : s ≠ "" := by
  intro hs
  rw [hs] at h
  exact Nat.lt_irrefl 0 h

theorem str_ne_empty_of_ten {s : String} (h : 10 ≤ strLen s) : s ≠ "" :=
  str_ne_empty_of_len (Nat.lt_of_lt_of_le (by decide) h)

theorem strLen_strDropL (s : String) (n : Nat) : strLen (strDropL s n) = strLen s - n := by
  simp [strLen, strDropL]

theorem append_ne_empty_right (a b : String) (h : b ≠ "") : a ++ b ≠ "" := by
  intro hc
  apply h
  have hd : a.data ++ b.data = [] := by rw [← strAppend_data, hc]
  exact String.ext (List.append_eq_nil.mp hd).2

theorem append_ne_empty_left (a b : String) (h : a ≠ "") : a ++ b ≠ "" := by
  intro hc
  apply h
  have hd : a.data ++ b.data = [] := by rw [← strAppend_data, hc]
  exact String.ext (List.append_eq_nil.mp hd).1

theorem fmtBody_props (dcc : String) (icc : Bool) (p : String) :
    (((fmtBody dcc icc p).2 = "VAZIO" ∨ (fmtBody dcc icc p).2 = "OK" ∨
      (fmtBody dcc icc p).2 = "OK (Sem +55)" ∨ (fmtBody dcc icc p).2 = "CORRIGIDO (+55)" ∨
      (fmtBody dcc icc p).2 = "INCERTO")
     ∧ (fmtBody dcc icc p).2 ≠ "INVÁLIDO (Curto)"
     ∧ ((fmtBody dcc icc p).1 = "" ↔ (fmtBody dcc icc p).2 = "VAZIO")) := by
  unfold fmtBody
  split_ifs with h1 h2 h3 h4 h5 h6
  · exact ⟨Or.inl rfl, by decide, by simp⟩
  · have hlen : 12 ≤ strLen p := of_decide_eq_true ((Bool.and_eq_true _ _).mp h3).2
    have hne : strDropL p 2 ≠ "" := by
      apply str_ne_empty_of_ten
      rw [strLen_strDropL]
      omega
    exact ⟨Or.inr (Or.inr (Or.inl rfl)),
      (by decide : ("OK (Sem +55)" : String) ≠ "INVÁLIDO (Curto)"),
      iff_of_false hne (by decide : ¬("OK (Sem +55)" : String) = "VAZIO")⟩
  · have hne : p ≠ "" := str_ne_empty_of_ten (show 10 ≤ strLen p by omega)
    exact ⟨Or.inr (Or.inr (Or.inl rfl)),
      (by decide : ("OK (Sem +55)" : String) ≠ "INVÁLIDO (Curto)"),
      iff_of_false hne (by decide : ¬("OK (Sem +55)" : String) = "VAZIO")⟩
  · have hne : "+" ++ p ≠ "" :=
      append_ne_empty_right _ _ (str_ne_empty_of_ten (show 10 ≤ strLen p by omega))
    exact ⟨Or.inr (Or.inl rfl),
      (by decide : ("OK" : String) ≠ "INVÁLIDO (Curto)"),
      iff_of_false hne (by decide : ¬("OK" : String) = "VAZIO")⟩
  · have hne : dcc ++ p ≠ "" :=
      append_ne_empty_right _ _ (str_ne_empty_of_ten (show 10 ≤ strLen p by omega))
    exact ⟨Or.inr (Or.inr (Or.inr (Or.inl rfl))),
      (by decide : ("CORRIGIDO (+55)" : String) ≠ "INVÁLIDO (Curto)"),
      iff_of_false hne (by decide : ¬("CORRIGIDO (+55)" : String) = "VAZIO")⟩
  · have hne : dcc ++ p ≠ "" :=
      append_ne_empty_right _ _ (str_ne_empty_of_ten (show 10 ≤ strLen p by omega))
    exact ⟨Or.inr (Or.inr (Or.inr (Or.inr rfl))),
      (by decide : ("INCERTO" : String) ≠ "INVÁLIDO (Curto)"),
      iff_of_false hne (by decide : ¬("INCERTO" : String) = "VAZIO")⟩
  · have hne : "+" ++ p ≠ "" :=
      append_ne_empty_right _ _ (str_ne_empty_of_ten (show 10 ≤ strLen p by omega))
    exact ⟨Or.inr (Or.inr (Or.inr (Or.inr rfl))),
      (by decide : ("INCERTO" : String) ≠ "INVÁLIDO (Curto)"),
      iff_of_false hne (by decide : ¬("INCERTO" : String) = "VAZIO")⟩

theorem fmt_props_general (v : Val) (dcc : String) (icc : Bool) :
    (((format_phone_for_whatsapp_business v dcc icc).2 = "VAZIO" ∨
      (format_phone_for_whatsapp_business v dcc icc).2 = "OK" ∨
      (format_phone_for_whatsapp_business v dcc icc).2 = "OK (Sem +55)" ∨
      (format_phone_for_whatsapp_business v dcc icc).2 = "CORRIGIDO (+55)" ∨
      (format_phone_for_whatsapp_business v dcc icc).2 = "INCERTO")
     ∧ (format_phone_for_whatsapp_business v dcc icc).2 ≠ "INVÁLIDO (Curto)"
     ∧ ((format_phone_for_whatsapp_business v dcc icc).1 = ""
        ↔ (format_phone_for_whatsapp_business v dcc icc).2 = "VAZIO")) := by
  unfold format_phone_for_whatsapp_business
  split_ifs with h1
  · exact ⟨Or.inl rfl, by decide, by simp⟩
  · rcases hq : fmtPhoneClean v with _ | pc
    · simp only [hq]
      trivial
    · simp only [hq]
      exact fmtBody_props dcc icc pc

theorem digit_not_ws {c : Char} (h : c.isDigit = true) : c.isWhitespace = false := by
  by_contra hw
  have hw' : c.isWhitespace = true := by
    cases hc : c.isWhitespace
    · exact absurd hc hw
    · rfl
  simp [Char.isWhitespace] at hw'
  rcases hw' with ((h1 | h1) | h1) | h1 <;> subst h1 <;> exact absurd h (by decide)

theorem dropWhile_ws_eq_self {l : List Char} (h : ∀ c ∈ l, c.isWhitespace = false) :
    l.dropWhile Char.isWhitespace = l := by
  cases l with
  | nil => rfl
  | cons c cs => simp [List.dropWhile_cons, h c (by simp)]

theorem pyStrip_of_digits {s : String} (h : ∀ c ∈ s.data, c.isDigit = true) :
    pyStrip s = s := by
  unfold pyStrip stripLChars stripRChars
  rw [dropWhile_ws_eq_self (fun c hc => digit_not_ws (h c hc))]
  rw [dropWhile_ws_eq_self (fun c hc => digit_not_ws (h c (List.mem_reverse.mp hc)))]
  rw [List.reverse_reverse]

theorem pyDigits_of_digits {s : String} (h : ∀ c ∈ s.data, c.isDigit = true) :
    pyDigits s = s := by
  unfold pyDigits
  rw [List.filter_eq_self.mpr h]

theorem strEnds_dot_zero_false {s : String} (h : ∀ c ∈ s.data, c.isDigit = true)
    (hlen : 2 ≤ strLen s) : strEnds s ".0" = false := by
  unfold strEnds
  have hr : 2 ≤ s.data.reverse.length := by
    rw [List.length_reverse]; exact hlen
  rcases hrev : s.data.reverse with _ | ⟨a, _ | ⟨b, t⟩⟩
  · rw [hrev] at hr; simp at hr
  · rw [hrev] at hr; simp at hr
  · have hb : b ∈ s.data := by
      rw [← List.mem_reverse, hrev]; simp
    have hbd : b.isDigit = true := h b hb
    have hbne : (decide (('.' : Char) = b)) = false := by
      apply decide_eq_false
      intro he
      rw [← he] at hbd
      exact absurd hbd (by decide)
    show (decide (('0' : Char) = a) && (decide (('.' : Char) = b) && chPre [] t)) = false
    rw [hbne]
    simp

theorem clean_preserve_of_digits {s : String} (hdig : ∀ c ∈ s.data, c.isDigit = true)
    (hlen : 10 ≤ strLen s) : clean_phone_number (Val.s s) true = some s := by
  have hne : s ≠ "" := str_ne_empty_of_ten hlen
  unfold clean_phone_number
  simp only [isNaVal, strOfVal, pyStrip_of_digits hdig, Bool.false_or,
    strEnds_dot_zero_false hdig (show 2 ≤ strLen s by omega), pyDigits_of_digits hdig,
    decide_eq_true_eq, if_true]
  rw [if_neg hne, if_neg (show ¬(false = true) by simp), pyDigits_of_digits hdig, if_pos hlen]

/-- C5: For every digit string of length exactly 10 or 11,
format_phone_for_whatsapp_business with include_country_code=true returns
the default country code prepended to the digits with status
CORRIGIDO (+55) (the spec CORRECTED). -/
theorem claim_C5_corrected_status (s : String) (hdig : ∀ c ∈ s.data, c.isDigit = true)
    (hlen : strLen s = 10 ∨ strLen s = 11) :
    format_phone_for_whatsapp_business (Val.s s) "+55" true
      = ("+55" ++ s, "CORRIGIDO (+55)") := by
  have h10 : 10 ≤ strLen s := by omega
  have hne : s ≠ "" := str_ne_empty_of_ten h10
  have hclean : fmtPhoneClean (Val.s s) = some s := by
    unfold fmtPhoneClean
    rw [clean_preserve_of_digits hdig h10]
    simp [hne]
  unfold format_phone_for_whatsapp_business
  rw [if_neg (by simp [isNaVal, strOfVal, pyStrip_of_digits hdig, hne])]
  rw [hclean]
  show fmtBody "+55" true s = ("+55" ++ s, "CORRIGIDO (+55)")
  unfold fmtBody
  rw [if_neg (by omega)]
  have h12 : (strStarts s "55" && decide (12 ≤ strLen s)) = false := by
    have : decide (12 ≤ strLen s) = false := decide_eq_false (by omega)
    rw [this]
    exact Bool.and_false _
  simp only [Bool.not_true, Bool.false_eq_true, if_false, h12]
  rw [if_pos (by rcases hlen with h | h <;> simp [h])]

/-- Witness for C5 at the concrete input 67981783902 from the spec. -/
theorem claim_C5_corrected_status_witness :
    (∀ c ∈ ("67981783902" : String).data, c.isDigit = true)
    ∧ (strLen "67981783902" = 10 ∨ strLen "67981783902" = 11)
    ∧ format_phone_for_whatsapp_business (Val.s "67981783902") "+55" true
        = ("+5567981783902", "CORRIGIDO (+55)") := by
  refine ⟨by decide, by decide, ?_⟩
  rw [claim_C5_corrected_status "67981783902" (by decide) (by decide)]
  decide

/-- C4: the default (non-preserving) policy of clean_phone_number agrees
with the strict-11 rule of the spec over the stripped digit string: with
11 or more digits it returns exactly the last 11 of them, with exactly 10
digits all 10, and with fewer than 10 digits it returns NaN. -/
theorem claim_C4_strict11 (v : Val) :
    clean_phone_number v false
      = (if 11 ≤ strLen (stripToDigits v) then
           some (strDropL (stripToDigits v) (strLen (stripToDigits v) - 11))
         else if strLen (stripToDigits v) = 10 then some (stripToDigits v)
         else none)
    ∧ (11 ≤ strLen (stripToDigits v) →
        ∃ r, clean_phone_number v false = some r ∧ strLen r = 11
          ∧ r.data = (stripToDigits v).data.drop (strLen (stripToDigits v) - 11)) := by
  have hmain : clean_phone_number v false
      = (if 11 ≤ strLen (stripToDigits v) then
           some (strDropL (stripToDigits v) (strLen (stripToDigits v) - 11))
         else if strLen (stripToDigits v) = 10 then some (stripToDigits v)
         else none) := by
    unfold clean_phone_number
    by_cases hg : (isNaVal v || decide (pyStrip (strOfVal v) = "")) = true
    · rw [if_pos hg]
      rcases Bool.or_eq_true_iff.mp hg with hna | hbl
      · cases v with
        | na => decide
        | s w => simp [isNaVal] at hna
      · have hbl' : pyStrip (strOfVal v) = "" := of_decide_eq_true hbl
        have hstd : stripToDigits v = "" := by
          unfold stripToDigits
          rw [hbl']
          rfl
        rw [hstd]
        rfl
    · rw [if_neg hg]
      rfl
  refine ⟨hmain, fun h11 => ?_⟩
  refine ⟨strDropL (stripToDigits v) (strLen (stripToDigits v) - 11), ?_, ?_, rfl⟩
  · rw [hmain, if_pos h11]
  · rw [strLen_strDropL]
    omega

/-- Witness for C4 at a concrete 13-digit input. -/
theorem claim_C4_strict11_witness :
    clean_phone_number (Val.s "+55 (67) 98178-3902") false = some "67981783902"
    ∧ 11 ≤ strLen (stripToDigits (Val.s "+55 (67) 98178-3902"))
    ∧ ∃ r, clean_phone_number (Val.s "+55 (67) 98178-3902") false = some r
        ∧ strLen r = 11
        ∧ r.data = (stripToDigits (Val.s "+55 (67) 98178-3902")).data.drop
            (strLen (stripToDigits (Val.s "+55 (67) 98178-3902")) - 11) :=
  ⟨by decide, by decide, (claim_C4_strict11 (Val.s "+55 (67) 98178-3902")).2 (by decide)⟩

example :
    ((cleanPipeline
      [{ razao := Val.s "B", logradouro := Val.na, numero := Val.na, bairro := Val.s "X",
         cidade := Val.na, uf := Val.na, nome := Val.na, whats := Val.s "67981783902",
         cel := Val.na, socio1nome := Val.s "JOAO", socio1cel1 := Val.na, socio1cel2 := Val.na },
       { razao := Val.s "A", logradouro := Val.na, numero := Val.na, bairro := Val.s "X",
         cidade := Val.na, uf := Val.na, nome := Val.na, whats := Val.s "6798178-3902",
         cel := Val.na, socio1nome := Val.na, socio1cel1 := Val.na, socio1cel2 := Val.na },
       { razao := Val.s "C", logradouro := Val.na, numero := Val.na, bairro := Val.s "X",
         cidade := Val.na, uf := Val.na, nome := Val.na, whats := Val.na,
         cel := Val.na, socio1nome := Val.na, socio1cel1 := Val.na, socio1cel2 := Val.na }]).map
      OutRow.whats) = ["+5567981783902"] := by decide

/-- C10: For every input, the status returned by
format_phone_for_whatsapp_business is one of VAZIO, OK, OK (Sem +55),
CORRIGIDO (+55), INCERTO; the status INVÁLIDO (Curto) named in its
documentation and tested for by callers is never returned, making those
caller branches unreachable; and the formatted string is empty if and
only if the status is VAZIO. -/
theorem claim_C10_formatter_status (v : Val) (dcc : String) (icc : Bool) :
    (((format_phone_for_whatsapp_business v dcc icc).2 = "VAZIO" ∨
      (format_phone_for_whatsapp_business v dcc icc).2 = "OK" ∨
      (format_phone_for_whatsapp_business v dcc icc).2 = "OK (Sem +55)" ∨
      (format_phone_for_whatsapp_business v dcc icc).2 = "CORRIGIDO (+55)" ∨
      (format_phone_for_whatsapp_business v dcc icc).2 = "INCERTO")
     ∧ (format_phone_for_whatsapp_business v dcc icc).2 ≠ "INVÁLIDO (Curto)"
     ∧ ((format_phone_for_whatsapp_business v dcc icc).1 = ""
        ↔ (format_phone_for_whatsapp_business v dcc icc).2 = "VAZIO")) :=
  fmt_props_general v dcc icc

/-- C1 counterexample: the formatting stage of clean_and_filter_data
stores the includeCountryCode=true result (with the +55 prefix), which
differs from the includeCountryCode=false formatter output the claim
asserts. -/
theorem claim_C1_counterexample :
    (formatStage
      { razao := Val.na, logradouro := Val.na, numero := Val.na, bairro := Val.na,
        cidade := Val.na, uf := Val.na, nome := Val.na, whats := Val.s "67981783902",
        cel := Val.na, socio1nome := Val.na, socio1cel1 := Val.na,
        socio1cel2 := Val.na }).whats = Val.s "+5567981783902"
    ∧ (format_phone_for_whatsapp_business (Val.s "67981783902") "+55" false).1
        = "67981783902"
    ∧ Val.s "+5567981783902" ≠ Val.s "67981783902" := by decide

/-- C1 amended: each phone-bearing canonical field in the result of the
formatting stage equals the DDI formatter applied with its default
includeCountryCode=true (so the +55 country code IS prepended to bare
10/11-digit values), stored as a string; the stored string is empty
exactly when the formatter status is VAZIO (empty, never null). -/
theorem claim_C1_formatting_stage (r : MidRow) :
    ((formatStage r).socio1cel1
        = Val.s ((format_phone_for_whatsapp_business r.socio1cel1 "+55" true).1)
    ∧ (formatStage r).socio1cel2
        = Val.s ((format_phone_for_whatsapp_business r.socio1cel2 "+55" true).1)
    ∧ (formatStage r).whats
        = Val.s ((format_phone_for_whatsapp_business r.whats "+55" true).1)
    ∧ (formatStage r).cel
        = Val.s ((format_phone_for_whatsapp_business r.cel "+55" true).1))
    ∧ ((formatStage r).whats = Val.s ""
        ↔ (format_phone_for_whatsapp_business r.whats "+55" true).2 = "VAZIO") := by
  refine ⟨⟨rfl, rfl, rfl, rfl⟩, ?_⟩
  show Val.s (formatPhoneCell r.whats) = Val.s "" ↔ _
  rw [Val.s.injEq]
  exact (fmt_props_general r.whats "+55" true).2.2

theorem pyStrip_of_noWs {s : String} (h : noWsStr s) : pyStrip s = s := by
  unfold pyStrip stripLChars stripRChars
  rw [dropWhile_ws_eq_self h]
  rw [dropWhile_ws_eq_self (fun c hc => h c (List.mem_reverse.mp hc))]
  rw [List.reverse_reverse]

theorem pyDigits_digits (s : String) : ∀ c ∈ (pyDigits s).data, c.isDigit = true := by
  intro c hc
  unfold pyDigits at hc
  exact List.of_mem_filter hc

theorem clean_some_digits {v : Val} {pf : Bool} {c : String}
    (h : clean_phone_number v pf = some c) : ∀ ch ∈ c.data, ch.isDigit = true := by
  unfold clean_phone_number at h
  by_cases hg : (isNaVal v || decide (pyStrip (strOfVal v) = "")) = true
  · rw [if_pos hg] at h
    exact absurd h (by simp)
  · rw [if_neg hg] at h
    set sV := pyStrip (strOfVal v) with hsV
    set sV2 := if strEnds sV ".0" = true then strDropR sV 2 else sV with hsV2
    by_cases hpf : pf = true
    · subst hpf
      simp only [if_true] at h
      by_cases hlen : 10 ≤ strLen (pyDigits sV2)
      · rw [if_pos hlen] at h
        cases h
        exact pyDigits_digits sV2
      · rw [if_neg hlen] at h
        exact absurd h (by simp)
    · have hpf' : pf = false := by
        cases pf
        · rfl
        · exact absurd rfl hpf
      subst hpf'
      simp only [Bool.false_eq_true, if_false] at h
      by_cases h11 : 11 ≤ strLen (pyDigits sV2)
      · rw [if_pos h11] at h
        cases h
        intro ch hch
        exact pyDigits_digits sV2 ch (List.mem_of_mem_drop hch)
      · rw [if_neg h11] at h
        by_cases h10 : strLen (pyDigits sV2) = 10
        · rw [if_pos h10] at h
          cases h
          exact pyDigits_digits sV2
        · rw [if_neg h10] at h
          exact absurd h (by simp)

theorem fmtPhoneClean_digits {v : Val} {c : String}
    (h : fmtPhoneClean v = some c) : ∀ ch ∈ c.data, ch.isDigit = true := by
  unfold fmtPhoneClean at h
  cases hcl : clean_phone_number v true with
  | none =>
    rw [hcl] at h
    unfold fmtFallbackDigits at h
    by_cases he : pyDigits (strOfVal v) = ""
    · rw [if_pos he] at h
      exact absurd h (by simp)
    · rw [if_neg he] at h
      cases h
      exact pyDigits_digits (strOfVal v)
  | some c0 =>
    rw [hcl] at h
    simp only [] at h
    by_cases he : c0 = ""
    · rw [if_pos he] at h
      unfold fmtFallbackDigits at h
      by_cases he2 : pyDigits (strOfVal v) = ""
      · rw [if_pos he2] at h
        exact absurd h (by simp)
      · rw [if_neg he2] at h
        cases h
        exact pyDigits_digits (strOfVal v)
    · rw [if_neg he] at h
      cases h
      exact clean_some_digits hcl

theorem noWs_lit (s : String) (h : (s.data.all fun c => !c.isWhitespace) = true) :
    noWsStr s := by
  intro c hc
  have := List.all_eq_true.mp h c hc
  simpa using this

theorem noWs_of_digits {s : String} (h : ∀ c ∈ s.data, c.isDigit = true) : noWsStr s :=
  fun c hc => digit_not_ws (h c hc)

theorem noWs_append {a b : String} (ha : noWsStr a) (hb : noWsStr b) : noWsStr (a ++ b) := by
  intro c hc
  rw [strAppend_data] at hc
  rcases List.mem_append.mp hc with h | h
  · exact ha c h
  · exact hb c h

theorem noWs_strDropL {s : String} (h : noWsStr s) (n : Nat) : noWsStr (strDropL s n) := by
  intro c hc
  exact h c (List.mem_of_mem_drop hc)

theorem fmt_out_noWs (v : Val) (icc : Bool) :
    noWsStr ((format_phone_for_whatsapp_business v "+55" icc).1) := by
  unfold format_phone_for_whatsapp_business
  split_ifs with hg
  · exact noWs_lit "" (by decide)
  · cases hq : fmtPhoneClean v with
    | none =>
      simp only [hq]
      exact noWs_lit "" (by decide)
    | some p =>
      simp only [hq]
      have hp : noWsStr p := noWs_of_digits (fmtPhoneClean_digits hq)
      show noWsStr (fmtBody "+55" icc p).1
      unfold fmtBody
      split_ifs with h1 h2 h3 h4 h5 h6
      · exact noWs_lit "" (by decide)
      · exact noWs_strDropL hp 2
      · exact hp
      · exact noWs_append (noWs_lit "+" (by decide)) hp
      · exact noWs_append (noWs_lit "+55" (by decide)) hp
      · exact noWs_append (noWs_lit "+55" (by decide)) hp
      · exact noWs_append (noWs_lit "+" (by decide)) hp

theorem blankToNa_fmt_good {w : String} (hw : noWsStr w) : goodVal (blankToNa (Val.s w)) := by
  show goodVal (if pyStrip w = "" then Val.na else Val.s w)
  rw [pyStrip_of_noWs hw]
  by_cases he : w = ""
  · rw [if_pos he]
    exact Or.inl rfl
  · rw [if_neg he]
    exact Or.inr ⟨w, rfl, he, pyStrip_of_noWs hw⟩

theorem fillNa_good {a b : Val} (ha : goodVal a) (hb : goodVal b) : goodVal (fillNa a b) := by
  rcases ha with ha | ⟨s, hs, hne, hstrip⟩
  · subst ha
    exact hb
  · subst hs
    exact Or.inr ⟨s, rfl, hne, hstrip⟩

theorem unify_format_goodWhats (r : MidRow) : goodVal ((unifyStage (formatStage r)).whats) := by
  show goodVal (fillNa (blankToNa (Val.s (formatPhoneCell r.whats)))
    (blankToNa (Val.s (formatPhoneCell r.socio1cel1))))
  exact fillNa_good
    (blankToNa_fmt_good (fmt_out_noWs r.whats true))
    (blankToNa_fmt_good (fmt_out_noWs r.socio1cel1 true))

theorem filterStage_mem {rows : List MidRow} {r : MidRow} (h : r ∈ filterStage rows) :
    r ∈ rows ∧ r.whats ≠ Val.s "" ∧ isNaVal r.whats = false := by
  unfold filterStage at h
  have h1 := List.mem_filter.mp h
  have h2 := List.mem_filter.mp h1.1
  refine ⟨h2.1, ?_, ?_⟩
  · have := h2.2
    simpa using this
  · have := h1.2
    simpa using this

theorem dedup_aux_mem {rows : List MidRow} :
    ∀ {seen : List Val} {r : MidRow}, r ∈ dedupByWhatsAux seen rows → r ∈ rows := by
  induction rows with
  | nil => intro seen r h; exact absurd h (by simp [dedupByWhatsAux])
  | cons a t ih =>
    intro seen r h
    unfold dedupByWhatsAux at h
    by_cases hm : a.whats ∈ seen
    · rw [if_pos hm] at h
      exact List.mem_cons_of_mem a (ih h)
    · rw [if_neg hm] at h
      rcases List.mem_cons.mp h with h | h
      · exact h ▸ List.mem_cons_self a t
      · exact List.mem_cons_of_mem a (ih h)

theorem dedup_aux_nodup (rows : List MidRow) :
    ∀ seen : List Val,
      ((dedupByWhatsAux seen rows).map MidRow.whats).Nodup
      ∧ ∀ r ∈ dedupByWhatsAux seen rows, r.whats ∉ seen := by
  induction rows with
  | nil => intro seen; exact ⟨by simp [dedupByWhatsAux], by simp [dedupByWhatsAux]⟩
  | cons a t ih =>
    intro seen
    unfold dedupByWhatsAux
    by_cases hm : a.whats ∈ seen
    · rw [if_pos hm]
      exact ih seen
    · rw [if_neg hm]
      obtain ⟨ihn, ihs⟩ := ih (a.whats :: seen)
      constructor
      · rw [List.map_cons, List.nodup_cons]
        constructor
        · intro hmem
          rcases List.mem_map.mp hmem with ⟨b, hb, hbw⟩
          exact (ihs b hb) (hbw ▸ List.mem_cons_self a.whats seen)
        · exact ihn
      · intro r hr
        rcases List.mem_cons.mp hr with h | h
        · rw [h]; exact hm
        · intro hc
          exact (ihs r h) (List.mem_cons_of_mem _ hc)

theorem nodup_map_of_nodup_map {α β γ : Type} (f : α → β) (g : α → γ) (l : List α)
    (h : (l.map f).Nodup) (hinj : ∀ x ∈ l, ∀ y ∈ l, g x = g y → f x = f y) :
    (l.map g).Nodup := by
  induction l with
  | nil => simp
  | cons a t ih =>
    rw [List.map_cons, List.nodup_cons] at h ⊢
    constructor
    · intro hmem
      rcases List.mem_map.mp hmem with ⟨b, hb, hbg⟩
      apply h.1
      rw [← hinj b (List.mem_cons_of_mem a hb) a (List.mem_cons_self a t) hbg]
      exact List.mem_map_of_mem f hb
    · exact ih h.2 (fun x hx y hy => hinj x (List.mem_cons_of_mem a hx) y (List.mem_cons_of_mem a hy))

/-- C3: for every input table, the table returned by the
clean_and_filter_data pipeline has pairwise distinct Whats values and
every returned row has a non-empty Whats value. -/
theorem claim_C3_dedup_nonempty (rows : List MidRow) :
    ((cleanPipeline rows).map OutRow.whats).Nodup
    ∧ ∀ r ∈ cleanPipeline rows, r.whats ≠ "" := by
  unfold cleanPipeline dedupByWhats
  set mids := rows.map (fun r => unifyStage (formatStage r)) with hmids
  set filt := filterStage mids with hfilt
  set ded := dedupByWhatsAux [] filt with hded
  have hmem_good : ∀ m ∈ ded, ∃ s, m.whats = Val.s s ∧ s ≠ "" ∧ pyStrip s = s := by
    intro m hm
    have hmf : m ∈ filt := dedup_aux_mem hm
    obtain ⟨hmm, hne, hna⟩ := filterStage_mem hmf
    have hg : goodVal m.whats := by
      rw [hmids] at hmm
      rcases List.mem_map.mp hmm with ⟨r0, _, hr0⟩
      rw [← hr0]
      exact unify_format_goodWhats r0
    rcases hg with hgna | ⟨s, hs, hsne, hstrip⟩
    · rw [hgna] at hna
      simp [isNaVal] at hna
    · exact ⟨s, hs, hsne, hstrip⟩
  have hnodupd : (ded.map MidRow.whats).Nodup := (dedup_aux_nodup filt []).1
  have hstrip_w : ∀ m ∈ ded, (stripStage m).whats ≠ "" := by
    intro m hm
    obtain ⟨s, hs, hsne, hstr⟩ := hmem_good m hm
    show strFill m.whats ≠ ""
    rw [hs]
    show pyStrip s ≠ ""
    rw [hstr]
    exact hsne
  have hnodup_mapped : ((ded.map stripStage).map OutRow.whats).Nodup := by
    rw [List.map_map]
    apply nodup_map_of_nodup_map MidRow.whats (OutRow.whats ∘ stripStage) ded hnodupd
    intro x hx y hy hxy
    obtain ⟨sx, hsx, hnex, hstrx⟩ := hmem_good x hx
    obtain ⟨sy, hsy, hney, hstry⟩ := hmem_good y hy
    have hxx : (OutRow.whats ∘ stripStage) x = sx := by
      show strFill x.whats = sx
      rw [hsx]
      show pyStrip sx = sx
      exact hstrx
    have hyy : (OutRow.whats ∘ stripStage) y = sy := by
      show strFill y.whats = sy
      rw [hsy]
      show pyStrip sy = sy
      exact hstry
    rw [hsx, hsy]
    rw [hxx, hyy] at hxy
    rw [hxy]
  have hperm := List.perm_insertionSort outRel (ded.map stripStage)
  constructor
  · exact ((hperm.map OutRow.whats).nodup_iff).mpr hnodup_mapped
  · intro r hr
    have hr' : r ∈ ded.map stripStage := hperm.mem_iff.mp hr
    rcases List.mem_map.mp hr' with ⟨m, hm, hms⟩
    rw [← hms]
    exact hstrip_w m hm

/-- Witness for C3 on a concrete table. -/
theorem claim_C3_dedup_nonempty_witness :
    outW3 ∈ cleanPipeline rowsW3 ∧ outW3.whats ≠ "" :=
  ⟨by decide, (claim_C3_dedup_nonempty rowsW3).2 outW3 (by decide)⟩

example : collectPhones rowB1 = ["123"] := by decide

example : collectPhones rowB2 = ["11987654321", "11987654321", "11987654321"] := by decide

theorem dcClean_some {v : Val} {p : String} (h : dcClean v = some p) :
    p ≠ "" ∧ ∀ c ∈ p.data, c.isDigit = true := by
  unfold dcClean at h
  by_cases hg : (isNaVal v || decide (pyStrip (strOfVal v) = "")) = true
  · rw [if_pos hg] at h
    exact absurd h (by simp)
  · rw [if_neg hg] at h
    by_cases he : pyDigits (strOfVal v) = ""
    · rw [if_pos he] at h
      exact absurd h (by simp)
    · rw [if_neg he] at h
      cases h
      exact ⟨he, pyDigits_digits (strOfVal v)⟩

theorem tryPhone_mem {cond : Prop} [Decidable cond] {v : Val} {acc : List String} {p : String}
    (h : p ∈ tryPhone cond v acc) :
    p ∈ acc ∨ (p ≠ "" ∧ ∀ c ∈ p.data, c.isDigit = true) := by
  unfold tryPhone at h
  by_cases hc : cond
  · rw [if_pos hc] at h
    cases hq : dcClean v with
    | none => rw [hq] at h; exact Or.inl h
    | some q =>
      rw [hq] at h
      simp only [] at h
      by_cases hqe : q ≠ ""
      · rw [if_pos hqe] at h
        rcases List.mem_append.mp h with h | h
        · exact Or.inl h
        · have : p = q := by simpa using h
          subst this
          exact Or.inr (dcClean_some hq)
      · rw [if_neg hqe] at h
        exact Or.inl h
  · rw [if_neg hc] at h
    exact Or.inl h

theorem tryPhone_len {cond : Prop} [Decidable cond] (v : Val) (acc : List String) :
    (tryPhone cond v acc).length ≤ acc.length + 1 := by
  unfold tryPhone
  by_cases hc : cond
  · rw [if_pos hc]
    cases hq : dcClean v with
    | none =>
      show acc.length ≤ acc.length + 1
      omega
    | some q =>
      simp only []
      by_cases hqe : q ≠ ""
      · rw [if_pos hqe]
        simp
      · rw [if_neg hqe]
        omega
  · rw [if_neg hc]
    omega

theorem tryPhone_false {cond : Prop} [Decidable cond] (hc : ¬cond) (v : Val)
    (acc : List String) : tryPhone cond v acc = acc := by
  unfold tryPhone
  rw [if_neg hc]

theorem stepPhones_mem {row : RawRow} {i : Nat} {acc : List String} {p : String}
    (h : p ∈ stepPhones row i acc) :
    p ∈ acc ∨ (p ≠ "" ∧ ∀ c ∈ p.data, c.isDigit = true) := by
  unfold stepPhones at h
  rcases tryPhone_mem h with h | hP
  · rcases tryPhone_mem h with h | hP
    · rcases tryPhone_mem h with h | hP
      · rcases tryPhone_mem h with h | hP
        · exact Or.inl h
        · exact Or.inr hP
      · exact Or.inr hP
    · exact Or.inr hP
  · exact Or.inr hP

theorem stepPhones_len (row : RawRow) (i : Nat) (acc : List String) :
    (stepPhones row i acc).length ≤ acc.length + 2 := by
  unfold stepPhones
  by_cases hd : cellStr row (dddCol i) = ""
  · rw [@tryPhone_false (cellStr row (dddCol i) ≠ "" ∧ cellStr row (foneCol i) ≠ "") _
        (by simp [hd]) _ acc]
    rw [@tryPhone_false (cellStr row (dddCol i) ≠ "" ∧ cellStr row (celCol i) ≠ "") _
        (by simp [hd]) _ acc]
    have h3 := @tryPhone_len (cellStr row (dddCol i) = "" ∧ cellStr row (foneCol i) ≠ "") _
      (Val.s (cellStr row (foneCol i))) acc
    have h4 := @tryPhone_len (cellStr row (dddCol i) = "" ∧ cellStr row (celCol i) ≠ "") _
      (Val.s (cellStr row (celCol i)))
      (tryPhone (cellStr row (dddCol i) = "" ∧ cellStr row (foneCol i) ≠ "")
        (Val.s (cellStr row (foneCol i))) acc)
    omega
  · rw [@tryPhone_false (cellStr row (dddCol i) = "" ∧ cellStr row (foneCol i) ≠ "") _
        (by simp [hd]) _
        (tryPhone (cellStr row (dddCol i) ≠ "" ∧ cellStr row (celCol i) ≠ "")
          (Val.s (cellStr row (dddCol i) ++ cellStr row (celCol i)))
          (tryPhone (cellStr row (dddCol i) ≠ "" ∧ cellStr row (foneCol i) ≠ "")
            (Val.s (cellStr row (dddCol i) ++ cellStr row (foneCol i))) acc))]
    rw [@tryPhone_false (cellStr row (dddCol i) = "" ∧ cellStr row (celCol i) ≠ "") _
        (by simp [hd]) _
        (tryPhone (cellStr row (dddCol i) ≠ "" ∧ cellStr row (celCol i) ≠ "")
          (Val.s (cellStr row (dddCol i) ++ cellStr row (celCol i)))
          (tryPhone (cellStr row (dddCol i) ≠ "" ∧ cellStr row (foneCol i) ≠ "")
            (Val.s (cellStr row (dddCol i) ++ cellStr row (foneCol i))) acc))]
    have h1 := @tryPhone_len (cellStr row (dddCol i) ≠ "" ∧ cellStr row (foneCol i) ≠ "") _
      (Val.s (cellStr row (dddCol i) ++ cellStr row (foneCol i))) acc
    have h2 := @tryPhone_len (cellStr row (dddCol i) ≠ "" ∧ cellStr row (celCol i) ≠ "") _
      (Val.s (cellStr row (dddCol i) ++ cellStr row (celCol i)))
      (tryPhone (cellStr row (dddCol i) ≠ "" ∧ cellStr row (foneCol i) ≠ "")
        (Val.s (cellStr row (dddCol i) ++ cellStr row (foneCol i))) acc)
    omega

theorem collectLoop_len (row : RawRow) :
    ∀ (n i : Nat) (acc : List String), acc.length ≤ 1 →
      (collectLoop row n i acc).length ≤ 3 := by
  intro n
  induction n with
  | zero =>
    intro i acc h
    show acc.length ≤ 3
    omega
  | succ n ih =>
    intro i acc h
    show (let acc' := stepPhones row i acc;
          if 2 ≤ acc'.length then acc' else collectLoop row n (i + 1) acc').length ≤ 3
    have hs := stepPhones_len row i acc
    by_cases h2 : 2 ≤ (stepPhones row i acc).length
    · simp only [if_pos h2]
      omega
    · simp only [if_neg h2]
      exact ih (i + 1) (stepPhones row i acc) (by omega)

theorem collectLoop_mem (row : RawRow) :
    ∀ (n i : Nat) (acc : List String) (p : String),
      p ∈ collectLoop row n i acc →
      p ∈ acc ∨ (p ≠ "" ∧ ∀ c ∈ p.data, c.isDigit = true) := by
  intro n
  induction n with
  | zero =>
    intro i acc p h
    exact Or.inl h
  | succ n ih =>
    intro i acc p h
    have h' : p ∈ (if 2 ≤ (stepPhones row i acc).length then stepPhones row i acc
        else collectLoop row n (i + 1) (stepPhones row i acc)) := h
    by_cases h2 : 2 ≤ (stepPhones row i acc).length
    · rw [if_pos h2] at h'
      exact stepPhones_mem h'
    · rw [if_neg h2] at h'
      rcases ih (i + 1) (stepPhones row i acc) p h' with h'' | hP
      · exact stepPhones_mem h''
      · exact Or.inr hP

/-- C2 counterexample: in the Format-B reconstruction a 1-digit DDD plus
2-digit FONE yields the 3-digit candidate "123", which IS stored in the
primary phone slot (so the strict-11 policy is not applied and short
candidates are not rejected); moreover a row can accumulate three
non-distinct phones before the early stop. -/
theorem claim_C2_counterexample :
    collectPhones rowB1 = ["123"]
    ∧ primarySlot FULL_EXTRACTION_COLS (collectPhones rowB1)
        = some ("SOCIO1Celular1", "123")
    ∧ strLen "123" < 10
    ∧ collectPhones rowB2 = ["11987654321", "11987654321", "11987654321"]
    ∧ ¬(collectPhones rowB2).Nodup
    ∧ 2 < (collectPhones rowB2).length := by decide

/-- C2 amended: every candidate accumulated by the Format-B phone
reconstruction is the bare digit strip of its source (non-empty, all
digits, no length validation and no truncation to 11 digits); duplicates
are not filtered; the scan stops only at the end of a variant index once
at least 2 phones are present, so up to 3 phones can be accumulated per
row, of which the first two fill the primary and secondary slots. -/
theorem claim_C2_digit_strip_accumulation (row : RawRow) :
    (∀ p ∈ collectPhones row, p ≠ "" ∧ ∀ c ∈ p.data, c.isDigit = true)
    ∧ (collectPhones row).length ≤ 3 := by
  constructor
  · intro p hp
    rcases collectLoop_mem row 8 0 [] p hp with h | h
    · exact absurd h (by simp)
    · exact h
  · exact collectLoop_len row 8 0 [] (by simp)

/-- Witness for C2 amended at the concrete row rowB1. -/
theorem claim_C2_digit_strip_accumulation_witness :
    ("123" ∈ collectPhones rowB1)
    ∧ ("123" ≠ "" ∧ ∀ c ∈ ("123" : String).data, c.isDigit = true)
    ∧ (collectPhones rowB1).length ≤ 3 :=
  ⟨by decide, (claim_C2_digit_strip_accumulation rowB1).1 "123" (by decide),
   (claim_C2_digit_strip_accumulation rowB1).2⟩

example : (fallbackRow FULL_EXTRACTION_COLS rowC6).2 = false := by decide

theorem socioFieldStep_preserve (cols : List String) (row : String → Val)
    (st : (String → Val) × Bool) (fld : String × String × String)
    (hne : fld.2.1 ≠ "SOCIO1Nome") (hflag : st.2 = true) :
    (socioFieldStep cols row st fld).2 = true
    ∧ (socioFieldStep cols row st fld).1 "SOCIO1Nome" = st.1 "SOCIO1Nome" := by
  unfold socioFieldStep
  split_ifs with h1 h2 h3 h4
  · refine ⟨rfl, ?_⟩
    show (if "SOCIO1Nome" = fld.2.1 then procGet cols row fld.2.2
          else st.1 "SOCIO1Nome") = st.1 "SOCIO1Nome"
    rw [if_neg (fun h => hne h.symm)]
  · exact ⟨hflag, rfl⟩
  · refine ⟨hflag, ?_⟩
    show (if "SOCIO1Nome" = fld.2.1 then Val.na else st.1 "SOCIO1Nome") = st.1 "SOCIO1Nome"
    rw [if_neg (fun h => hne h.symm)]
  · exact ⟨hflag, rfl⟩
  · exact ⟨rfl, rfl⟩

theorem socioFieldStep_invalid (cols : List String) (row : String → Val)
    (st : (String → Val) × Bool) (fld : String × String × String)
    (h1 : isFieldValid fld.1 (procGet cols row fld.2.1) = false)
    (h2 : isFieldValid fld.1 (procGet cols row fld.2.2) = false) :
    (socioFieldStep cols row st fld).2 = st.2 := by
  unfold socioFieldStep
  rw [if_pos h1, if_neg (by rw [h2]; simp)]
  split_ifs with h3
  · rfl
  · rfl

/-- C6 counterexample: with the standard FULL_EXTRACTION_COLS set the
SOCIO2 columns are not extracted, so a row whose primary fields are all
invalid is dropped even though the input file holds a valid secondary
name. -/
theorem claim_C6_counterexample :
    (fallbackRow FULL_EXTRACTION_COLS rowC6).2 = false
    ∧ "SOCIO1Nome" ∈ FULL_EXTRACTION_COLS
    ∧ "SOCIO2Nome" ∉ FULL_EXTRACTION_COLS
    ∧ isFieldValid "Nome" (rowC6 "SOCIO2Nome") = true := by decide

/-- C6 amended: the fallback reads the secondary values from the
PROCESSED table, so it applies only when the SOCIO2 columns are among
the expected (processed) columns.  When both SOCIO1Nome and SOCIO2Nome
are processed columns, a row with four invalid primary fields and a
valid secondary name keeps the secondary name in the primary slot and is
not dropped; a row invalid across all four fields for both persons is
dropped. -/
theorem claim_C6_processed_fallback (cols : List String) (row : String → Val) :
    (("SOCIO1Nome" ∈ cols ∧ "SOCIO2Nome" ∈ cols
      ∧ (∀ fld ∈ SOCIO_FIELDS, isFieldValid fld.1 (procGet cols row fld.2.1) = false)
      ∧ isFieldValid "Nome" (row "SOCIO2Nome") = true) →
      ((fallbackRow cols row).2 = true
       ∧ (fallbackRow cols row).1 "SOCIO1Nome" = row "SOCIO2Nome"))
    ∧ ((∀ fld ∈ SOCIO_FIELDS,
          isFieldValid fld.1 (procGet cols row fld.2.1) = false
          ∧ isFieldValid fld.1 (procGet cols row fld.2.2) = false) →
        (fallbackRow cols row).2 = false) := by
  constructor
  · rintro ⟨h1, h2, hinv, hsec⟩
    have hstep1 : socioFieldStep cols row (row, false) ("Nome", "SOCIO1Nome", "SOCIO2Nome")
        = (fun c => if c = "SOCIO1Nome" then procGet cols row "SOCIO2Nome" else row c, true) := by
      unfold socioFieldStep
      rw [if_pos (hinv ("Nome", "SOCIO1Nome", "SOCIO2Nome") (by simp [SOCIO_FIELDS]))]
      rw [if_pos (by show isFieldValid "Nome" (procGet cols row "SOCIO2Nome") = true
                     unfold procGet
                     rw [if_pos h2]
                     exact hsec)]
      rw [if_pos h1]
    have hfold : fallbackRow cols row
        = List.foldl (socioFieldStep cols row)
            (socioFieldStep cols row (row, false) ("Nome", "SOCIO1Nome", "SOCIO2Nome"))
            [("Celular1", "SOCIO1Celular1", "SOCIO2Celular1"),
             ("Celular2", "SOCIO1Celular2", "SOCIO2Celular2"),
             ("CPF", "SOCIO1CPF", "SOCIO2CPF")] := rfl
    rw [hfold, hstep1]
    set st1 : (String → Val) × Bool :=
      (fun c => if c = "SOCIO1Nome" then procGet cols row "SOCIO2Nome" else row c, true) with hst1
    have p2 := socioFieldStep_preserve cols row st1
      ("Celular1", "SOCIO1Celular1", "SOCIO2Celular1") (by decide) rfl
    set st2 := socioFieldStep cols row st1 ("Celular1", "SOCIO1Celular1", "SOCIO2Celular1") with hst2
    have p3 := socioFieldStep_preserve cols row st2
      ("Celular2", "SOCIO1Celular2", "SOCIO2Celular2") (by decide) p2.1
    set st3 := socioFieldStep cols row st2 ("Celular2", "SOCIO1Celular2", "SOCIO2Celular2") with hst3
    have p4 := socioFieldStep_preserve cols row st3 ("CPF", "SOCIO1CPF", "SOCIO2CPF")
      (by decide) p3.1
    show (socioFieldStep cols row st3 ("CPF", "SOCIO1CPF", "SOCIO2CPF")).2 = true
      ∧ (socioFieldStep cols row st3 ("CPF", "SOCIO1CPF", "SOCIO2CPF")).1 "SOCIO1Nome"
          = row "SOCIO2Nome"
    refine ⟨p4.1, ?_⟩
    rw [p4.2, p3.2, p2.2]
    show (if "SOCIO1Nome" = "SOCIO1Nome" then procGet cols row "SOCIO2Nome" else row "SOCIO1Nome")
        = row "SOCIO2Nome"
    rw [if_pos rfl]
    unfold procGet
    rw [if_pos h2]
  · intro hall
    have e1 := socioFieldStep_invalid cols row (row, false)
      ("Nome", "SOCIO1Nome", "SOCIO2Nome")
      (hall _ (by simp [SOCIO_FIELDS])).1 (hall _ (by simp [SOCIO_FIELDS])).2
    have e2 := socioFieldStep_invalid cols row
      (socioFieldStep cols row (row, false) ("Nome", "SOCIO1Nome", "SOCIO2Nome"))
      ("Celular1", "SOCIO1Celular1", "SOCIO2Celular1")
      (hall _ (by simp [SOCIO_FIELDS])).1 (hall _ (by simp [SOCIO_FIELDS])).2
    have e3 := socioFieldStep_invalid cols row
      (socioFieldStep cols row
        (socioFieldStep cols row (row, false) ("Nome", "SOCIO1Nome", "SOCIO2Nome"))
        ("Celular1", "SOCIO1Celular1", "SOCIO2Celular1"))
      ("Celular2", "SOCIO1Celular2", "SOCIO2Celular2")
      (hall _ (by simp [SOCIO_FIELDS])).1 (hall _ (by simp [SOCIO_FIELDS])).2
    have e4 := socioFieldStep_invalid cols row
      (socioFieldStep cols row
        (socioFieldStep cols row
          (socioFieldStep cols row (row, false) ("Nome", "SOCIO1Nome", "SOCIO2Nome"))
          ("Celular1", "SOCIO1Celular1", "SOCIO2Celular1"))
        ("Celular2", "SOCIO1Celular2", "SOCIO2Celular2"))
      ("CPF", "SOCIO1CPF", "SOCIO2CPF")
      (hall _ (by simp [SOCIO_FIELDS])).1 (hall _ (by simp [SOCIO_FIELDS])).2
    show (socioFieldStep cols row (socioFieldStep cols row (socioFieldStep cols row
      (socioFieldStep cols row (row, false) ("Nome", "SOCIO1Nome", "SOCIO2Nome"))
      ("Celular1", "SOCIO1Celular1", "SOCIO2Celular1"))
      ("Celular2", "SOCIO1Celular2", "SOCIO2Celular2"))
      ("CPF", "SOCIO1CPF", "SOCIO2CPF")).2 = false
    rw [e4, e3, e2, e1]

/-- Witness for C6 amended: with SOCIO2Nome among the processed columns
the secondary name is promoted and the row kept. -/
theorem claim_C6_processed_fallback_witness :
    (fallbackRow colsC6W rowC6).2 = true
    ∧ (fallbackRow colsC6W rowC6).1 "SOCIO1Nome" = rowC6 "SOCIO2Nome" :=
  (claim_C6_processed_fallback colsC6W rowC6).1 ⟨by decide, by decide, by decide, by decide⟩

example : detectStructure ["NOME", "Possui-WhatsApp", "FONE"] = "Lemit" := by decide

example : detectStructure ["Razao", "CEP", "Bairro", "Cidade", "UF"] = "Assertiva" := by decide

example : detectStructure ["foo"] = "Desconhecida" := by decide

/-- C8: any table whose normalized column names contain the
Format-B-exclusive marker POSSUI-WHATSAPP is classified Lemit, no matter
how many Format-A markers are present. -/
theorem claim_C8_formatB_priority (cols : List String)
    (h : normalize_colname "POSSUI-WHATSAPP" ∈ cols.map normalize_colname) :
    detectStructure cols = "Lemit" := by
  unfold detectStructure
  simp only [decide_eq_true_eq]
  rw [if_pos (by simp [h])]

/-- Witness for C8: a table carrying the Format-B marker and five
Format-A markers is still classified Lemit. -/
theorem claim_C8_formatB_priority_witness :
    normalize_colname "POSSUI-WHATSAPP"
      ∈ (["POSSUI-WHATSAPP", "Razao", "CEP", "Bairro", "Cidade", "UF",
          "Logradouro", "Numero"] : List String).map normalize_colname
    ∧ detectStructure ["POSSUI-WHATSAPP", "Razao", "CEP", "Bairro", "Cidade", "UF",
        "Logradouro", "Numero"] = "Lemit" :=
  ⟨by decide, claim_C8_formatB_priority _ (by decide)⟩

theorem Frac.toRat_ofInt (n : Int) : (Frac.ofInt n).toRat = (n : ℚ) := by
  unfold toRat ofInt
  simp

theorem Frac.toRat_add {a b : Frac} (ha : a.den ≠ 0) (hb : b.den ≠ 0) :
    (a.add b).toRat = a.toRat + b.toRat := by
  unfold toRat add
  have ha' : ((a.den : ℚ)) ≠ 0 := Nat.cast_ne_zero.mpr ha
  have hb' : ((b.den : ℚ)) ≠ 0 := Nat.cast_ne_zero.mpr hb
  push_cast
  field_simp

theorem Frac.toRat_sub {a b : Frac} (ha : a.den ≠ 0) (hb : b.den ≠ 0) :
    (a.sub b).toRat = a.toRat - b.toRat := by
  unfold toRat sub
  have ha' : ((a.den : ℚ)) ≠ 0 := Nat.cast_ne_zero.mpr ha
  have hb' : ((b.den : ℚ)) ≠ 0 := Nat.cast_ne_zero.mpr hb
  push_cast
  field_simp
  ring

theorem Frac.toRat_mulInt {a : Frac} (n : Int) :
    (Frac.mulInt n a).toRat = (n : ℚ) * a.toRat := by
  unfold toRat mulInt
  push_cast
  ring

theorem Frac.toRat_divNat {a : Frac} {n : Nat} (hn : n ≠ 0) :
    (a.divNat n).toRat = a.toRat / (n : ℚ) := by
  unfold toRat divNat
  have hn' : ((n : ℚ)) ≠ 0 := Nat.cast_ne_zero.mpr hn
  push_cast
  rw [div_div]

theorem Frac.blt_iff {a b : Frac} (ha : a.den ≠ 0) (hb : b.den ≠ 0) :
    a.blt b = true ↔ a.toRat < b.toRat := by
  unfold blt toRat
  have ha' : (0 : ℚ) < a.den := by
    exact_mod_cast Nat.pos_of_ne_zero ha
  have hb' : (0 : ℚ) < b.den := by
    exact_mod_cast Nat.pos_of_ne_zero hb
  rw [div_lt_div_iff₀ ha' hb', decide_eq_true_eq]
  constructor
  · intro h
    exact_mod_cast h
  · intro h
    exact_mod_cast h

theorem Frac.ble_iff {a b : Frac} (ha : a.den ≠ 0) (hb : b.den ≠ 0) :
    a.ble b = true ↔ a.toRat ≤ b.toRat := by
  unfold ble toRat
  have ha' : (0 : ℚ) < a.den := by
    exact_mod_cast Nat.pos_of_ne_zero ha
  have hb' : (0 : ℚ) < b.den := by
    exact_mod_cast Nat.pos_of_ne_zero hb
  rw [div_le_div_iff₀ ha' hb', decide_eq_true_eq]
  constructor
  · intro h
    exact_mod_cast h
  · intro h
    exact_mod_cast h

example : best_match_column seqRatioModel ["Foo", "Whats"] ["whats"] (Frac.ofInt 50)
    = "Whats" := by decide

example : best_match_column seqRatioModel ["z9"] ["WhatsApp", "Whats", "Celular", "Phone"]
    (Frac.ofInt 50) = "" := by decide

theorem Frac.den_add (a b : Frac) : (a.add b).den = a.den * b.den := rfl

theorem Frac.den_sub (a b : Frac) : (a.sub b).den = a.den * b.den := rfl

theorem Frac.den_mulInt (n : Int) (a : Frac) : (Frac.mulInt n a).den = a.den := rfl

theorem Frac.den_ofInt (n : Int) : (Frac.ofInt n).den = 1 := rfl

theorem jacTerm_den (candL colL : String) : (jacTerm candL colL).den ≠ 0 := by
  unfold jacTerm
  split_ifs with h1 h2
  · show (1 * ((tokSet candL) ∪ (tokSet colL)).card) ≠ 0
    have := Finset.Nonempty.card_pos h2
    omega
  · exact one_ne_zero
  · exact one_ne_zero

theorem jacTerm_bounds (candL colL : String) :
    0 ≤ (jacTerm candL colL).toRat ∧ (jacTerm candL colL).toRat ≤ 40 := by
  unfold jacTerm
  split_ifs with h1 h2
  · have hu : 0 < (((tokSet candL) ∪ (tokSet colL)).card : ℚ) := by
      exact_mod_cast Finset.Nonempty.card_pos h2
    rw [Frac.toRat_divNat (by exact_mod_cast hu.ne'), Frac.toRat_ofInt]
    constructor
    · apply div_nonneg _ hu.le
      positivity
    · rw [div_le_iff₀ hu]
      have hle : (((tokSet candL) ∩ (tokSet colL)).card : ℚ)
          ≤ (((tokSet candL) ∪ (tokSet colL)).card : ℚ) := by
        exact_mod_cast Finset.card_le_card (Finset.inter_subset_union)
      push_cast
      nlinarith
  · rw [Frac.toRat_ofInt]
    norm_num
  · rw [Frac.toRat_ofInt]
    norm_num

theorem pairScore_eq (ratio : String → String → Frac) (candL colL : String) :
    pairScore ratio candL colL =
      ((((if colL = candL then Frac.ofInt 120 else Frac.ofInt 0).add
        (if strIn candL colL || strIn colL candL then Frac.ofInt 80 else Frac.ofInt 0)).add
        (jacTerm candL colL)).add
        (Frac.mulInt 40 (ratio candL colL))).sub
        ((Frac.ofInt (strLen colL : Int)).divNat 100) := rfl

theorem pairScore_den {ratio : String → String → Frac}
    (hr : ∀ a b, (ratio a b).den ≠ 0) (candL colL : String) :
    (pairScore ratio candL colL).den ≠ 0 := by
  rw [pairScore_eq]
  rw [Frac.den_sub, Frac.den_add, Frac.den_add, Frac.den_add, Frac.den_mulInt]
  have h1 : (if colL = candL then Frac.ofInt 120 else Frac.ofInt 0).den = 1 := by
    split_ifs <;> rfl
  have h2 : (if strIn candL colL || strIn colL candL then Frac.ofInt 80
      else Frac.ofInt 0).den = 1 := by
    split_ifs <;> rfl
  have h5 : ((Frac.ofInt (strLen colL : Int)).divNat 100).den = 100 := rfl
  rw [h1, h2, h5]
  have hj := jacTerm_den candL colL
  have hrr := hr candL colL
  simp [Nat.mul_ne_zero]
  exact ⟨hj, hrr⟩

theorem pairScore_toRat (ratio : String → String → Frac)
    (hr : ∀ a b, (ratio a b).den ≠ 0) (candL colL : String) :
    (pairScore ratio candL colL).toRat =
      (if colL = candL then (120 : ℚ) else 0)
      + (if strIn candL colL || strIn colL candL then (80 : ℚ) else 0)
      + (jacTerm candL colL).toRat
      + 40 * (ratio candL colL).toRat
      - (strLen colL : ℚ) / 100 := by
  rw [pairScore_eq]
  have h1 : (if colL = candL then Frac.ofInt 120 else Frac.ofInt 0).den = 1 := by
    split_ifs <;> rfl
  have h2 : (if strIn candL colL || strIn colL candL then Frac.ofInt 80
      else Frac.ofInt 0).den = 1 := by
    split_ifs <;> rfl
  have h3 := jacTerm_den candL colL
  have h4 : (Frac.mulInt 40 (ratio candL colL)).den ≠ 0 := by
    rw [Frac.den_mulInt]
    exact hr candL colL
  have h12 : ((if colL = candL then Frac.ofInt 120 else Frac.ofInt 0).add
      (if strIn candL colL || strIn colL candL then Frac.ofInt 80
        else Frac.ofInt 0)).den ≠ 0 := by
    rw [Frac.den_add, h1, h2]
    norm_num
  have h123 : (((if colL = candL then Frac.ofInt 120 else Frac.ofInt 0).add
      (if strIn candL colL || strIn colL candL then Frac.ofInt 80
        else Frac.ofInt 0)).add (jacTerm candL colL)).den ≠ 0 := by
    rw [Frac.den_add]
    exact Nat.mul_ne_zero h12 h3
  have h1234 : ((((if colL = candL then Frac.ofInt 120 else Frac.ofInt 0).add
      (if strIn candL colL || strIn colL candL then Frac.ofInt 80
        else Frac.ofInt 0)).add (jacTerm candL colL)).add
      (Frac.mulInt 40 (ratio candL colL))).den ≠ 0 := by
    rw [Frac.den_add]
    exact Nat.mul_ne_zero h123 h4
  have h5 : ((Frac.ofInt (strLen colL : Int)).divNat 100).den ≠ 0 := by
    show (1 * 100 : Nat) ≠ 0
    norm_num
  rw [Frac.toRat_sub h1234 h5, Frac.toRat_add h123 h4, Frac.toRat_add h12 h3,
    Frac.toRat_add (by rw [h1]; norm_num) (by rw [h2]; norm_num), Frac.toRat_mulInt,
    Frac.toRat_divNat (by norm_num), Frac.toRat_ofInt]
  have e1 : (if colL = candL then Frac.ofInt 120 else Frac.ofInt 0).toRat
      = (if colL = candL then (120 : ℚ) else 0) := by
    split_ifs <;> rw [Frac.toRat_ofInt] <;> norm_num
  have e2 : (if strIn candL colL || strIn colL candL then Frac.ofInt 80
      else Frac.ofInt 0).toRat
      = (if strIn candL colL || strIn colL candL then (80 : ℚ) else 0) := by
    split_ifs <;> rw [Frac.toRat_ofInt] <;> norm_num
  rw [e1, e2]
  push_cast
  ring

theorem chPre_refl (l : List Char) : chPre l l = true := by
  induction l with
  | nil => rfl
  | cons c cs ih => simp [chPre, ih]

theorem strIn_self (s : String) : strIn s s = true := by
  unfold strIn
  cases hd : s.data with
  | nil => rfl
  | cons c cs =>
    unfold chSub
    rw [chPre_refl]
    exact Bool.true_or _

theorem pairScore_le_160 {ratio : String → String → Frac}
    (hr : ∀ a b, (ratio a b).den ≠ 0 ∧ 0 ≤ (ratio a b).toRat ∧ (ratio a b).toRat ≤ 1)
    {candL colL : String} (hne : colL ≠ candL) :
    (pairScore ratio candL colL).toRat ≤ 160 := by
  rw [pairScore_toRat ratio (fun a b => (hr a b).1) candL colL]
  rw [if_neg hne]
  have hj := jacTerm_bounds candL colL
  have hrb := hr candL colL
  have hlen : (0 : ℚ) ≤ (strLen colL : ℚ) / 100 := by positivity
  have h2 : (if strIn candL colL || strIn colL candL then (80 : ℚ) else 0) ≤ 80 := by
    split_ifs <;> norm_num
  nlinarith [hrb.2.1, hrb.2.2, hj.1, hj.2]

theorem pairScore_ge_exact {ratio : String → String → Frac}
    (hr : ∀ a b, (ratio a b).den ≠ 0 ∧ 0 ≤ (ratio a b).toRat ∧ (ratio a b).toRat ≤ 1)
    {candL colL : String} (heq : colL = candL) :
    200 - (strLen colL : ℚ) / 100 ≤ (pairScore ratio candL colL).toRat := by
  rw [pairScore_toRat ratio (fun a b => (hr a b).1) candL colL]
  rw [if_pos heq]
  have hsub : (if strIn candL colL || strIn colL candL then (80 : ℚ) else 0) = 80 := by
    rw [if_pos]
    rw [heq, strIn_self]
    simp
  rw [hsub]
  have hj := jacTerm_bounds candL colL
  have hrb := hr candL colL
  nlinarith [hrb.2.1, hj.1]

theorem bmInner_den {ratio : String → String → Frac} (hr : ∀ a b, (ratio a b).den ≠ 0)
    (candL : String) {a : String × Frac} (ha : a.2.den ≠ 0) (col : String) :
    ((bmInner ratio candL a col).2).den ≠ 0 := by
  unfold bmInner
  split_ifs with h
  · exact pairScore_den hr candL (strLower col)
  · exact ha

theorem bmInner_ge {ratio : String → String → Frac} (hr : ∀ a b, (ratio a b).den ≠ 0)
    (candL : String) {a : String × Frac} (ha : a.2.den ≠ 0) (col : String) :
    a.2.toRat ≤ ((bmInner ratio candL a col).2).toRat := by
  unfold bmInner
  split_ifs with h
  · exact le_of_lt ((Frac.blt_iff ha (pairScore_den hr candL (strLower col))).mp h)
  · exact le_refl _

theorem bmInner_score {ratio : String → String → Frac} (hr : ∀ a b, (ratio a b).den ≠ 0)
    (candL : String) {a : String × Frac} (ha : a.2.den ≠ 0) (col : String) :
    (pairScore ratio candL (strLower col)).toRat ≤ ((bmInner ratio candL a col).2).toRat := by
  unfold bmInner
  split_ifs with h
  · exact le_refl _
  · exact le_of_not_lt
      (fun hc => h ((Frac.blt_iff ha (pairScore_den hr candL (strLower col))).mpr hc))

theorem foldlInner_den {ratio : String → String → Frac} (hr : ∀ a b, (ratio a b).den ≠ 0)
    (candL : String) :
    ∀ (cols : List String) (a : String × Frac), a.2.den ≠ 0 →
      ((cols.foldl (bmInner ratio candL) a).2).den ≠ 0 := by
  intro cols
  induction cols with
  | nil => intro a ha; exact ha
  | cons c cs ih =>
    intro a ha
    exact ih (bmInner ratio candL a c) (bmInner_den hr candL ha c)

theorem foldlInner_ge {ratio : String → String → Frac} (hr : ∀ a b, (ratio a b).den ≠ 0)
    (candL : String) :
    ∀ (cols : List String) (a : String × Frac), a.2.den ≠ 0 →
      a.2.toRat ≤ ((cols.foldl (bmInner ratio candL) a).2).toRat := by
  intro cols
  induction cols with
  | nil => intro a _; exact le_refl _
  | cons c cs ih =>
    intro a ha
    exact le_trans (bmInner_ge hr candL ha c)
      (ih (bmInner ratio candL a c) (bmInner_den hr candL ha c))

theorem foldlInner_dominates {ratio : String → String → Frac}
    (hr : ∀ a b, (ratio a b).den ≠ 0) (candL : String) :
    ∀ (cols : List String) (a : String × Frac), a.2.den ≠ 0 →
      ∀ col ∈ cols, (pairScore ratio candL (strLower col)).toRat
        ≤ ((cols.foldl (bmInner ratio candL) a).2).toRat := by
  intro cols
  induction cols with
  | nil => intro a _ col hc; exact absurd hc (by simp)
  | cons c cs ih =>
    intro a ha col hc
    rcases List.mem_cons.mp hc with h | h
    · subst h
      exact le_trans (bmInner_score hr candL ha col)
        (foldlInner_ge hr candL cs _ (bmInner_den hr candL ha col))
    · exact ih (bmInner ratio candL a c) (bmInner_den hr candL ha c) col h

theorem foldlInner_attain {ratio : String → String → Frac} (candL : String) :
    ∀ (cols : List String) (a : String × Frac),
      cols.foldl (bmInner ratio candL) a = a
      ∨ ∃ col ∈ cols, cols.foldl (bmInner ratio candL) a
          = (col, pairScore ratio candL (strLower col)) := by
  intro cols
  induction cols with
  | nil => intro a; exact Or.inl rfl
  | cons c cs ih =>
    intro a
    have hstep : bmInner ratio candL a c = a
        ∨ bmInner ratio candL a c = (c, pairScore ratio candL (strLower c)) := by
      unfold bmInner
      split_ifs
      · exact Or.inr rfl
      · exact Or.inl rfl
    rcases ih (bmInner ratio candL a c) with h | ⟨col, hcol, h⟩
    · rcases hstep with h2 | h2
      · apply Or.inl
        show List.foldl (bmInner ratio candL) (bmInner ratio candL a c) cs = a
        rw [h, h2]
      · refine Or.inr ⟨c, List.mem_cons_self c cs, ?_⟩
        show List.foldl (bmInner ratio candL) (bmInner ratio candL a c) cs
            = (c, pairScore ratio candL (strLower c))
        rw [h, h2]
    · exact Or.inr ⟨col, List.mem_cons_of_mem c hcol, h⟩

theorem bmStep_den {ratio : String → String → Frac} (hr : ∀ a b, (ratio a b).den ≠ 0)
    (cols : List String) {acc : String × Frac} (ha : acc.2.den ≠ 0) (cand : String) :
    ((bmStep ratio cols acc cand).2).den ≠ 0 := by
  unfold bmStep
  split_ifs with h
  · exact ha
  · exact foldlInner_den hr (strLower cand) cols acc ha

theorem bmStep_ge {ratio : String → String → Frac} (hr : ∀ a b, (ratio a b).den ≠ 0)
    (cols : List String) {acc : String × Frac} (ha : acc.2.den ≠ 0) (cand : String) :
    acc.2.toRat ≤ ((bmStep ratio cols acc cand).2).toRat := by
  unfold bmStep
  split_ifs with h
  · exact le_refl _
  · exact foldlInner_ge hr (strLower cand) cols acc ha

theorem foldlOuter_den {ratio : String → String → Frac} (hr : ∀ a b, (ratio a b).den ≠ 0)
    (cols : List String) :
    ∀ (cands : List String) (acc : String × Frac), acc.2.den ≠ 0 →
      ((cands.foldl (bmStep ratio cols) acc).2).den ≠ 0 := by
  intro cands
  induction cands with
  | nil => intro acc ha; exact ha
  | cons c cs ih =>
    intro acc ha
    exact ih (bmStep ratio cols acc c) (bmStep_den hr cols ha c)

theorem foldlOuter_ge {ratio : String → String → Frac} (hr : ∀ a b, (ratio a b).den ≠ 0)
    (cols : List String) :
    ∀ (cands : List String) (acc : String × Frac), acc.2.den ≠ 0 →
      acc.2.toRat ≤ ((cands.foldl (bmStep ratio cols) acc).2).toRat := by
  intro cands
  induction cands with
  | nil => intro acc _; exact le_refl _
  | cons c cs ih =>
    intro acc ha
    exact le_trans (bmStep_ge hr cols ha c)
      (ih (bmStep ratio cols acc c) (bmStep_den hr cols ha c))

theorem foldlOuter_dominates {ratio : String → String → Frac}
    (hr : ∀ a b, (ratio a b).den ≠ 0) (cols : List String) :
    ∀ (cands : List String) (acc : String × Frac), acc.2.den ≠ 0 →
      ∀ cand ∈ cands, cand ≠ "" → ∀ col ∈ cols,
        (pairScore ratio (strLower cand) (strLower col)).toRat
          ≤ ((cands.foldl (bmStep ratio cols) acc).2).toRat := by
  intro cands
  induction cands with
  | nil => intro acc _ cand hc; exact absurd hc (by simp)
  | cons c cs ih =>
    intro acc ha cand hc hne col hcol
    rcases List.mem_cons.mp hc with h | h
    · subst h
      have hstep : (pairScore ratio (strLower cand) (strLower col)).toRat
          ≤ ((bmStep ratio cols acc cand).2).toRat := by
        unfold bmStep
        rw [if_neg hne]
        exact foldlInner_dominates hr (strLower cand) cols acc ha col hcol
      exact le_trans hstep
        (foldlOuter_ge hr cols cs _ (bmStep_den hr cols ha cand))
    · exact ih (bmStep ratio cols acc c) (bmStep_den hr cols ha c) cand h hne col hcol

theorem foldlOuter_attain {ratio : String → String → Frac} (cols : List String) :
    ∀ (cands : List String) (acc : String × Frac),
      cands.foldl (bmStep ratio cols) acc = acc
      ∨ ∃ cand ∈ cands, cand ≠ "" ∧ ∃ col ∈ cols,
          cands.foldl (bmStep ratio cols) acc
            = (col, pairScore ratio (strLower cand) (strLower col)) := by
  intro cands
  induction cands with
  | nil => intro acc; exact Or.inl rfl
  | cons c cs ih =>
    intro acc
    have hstep : bmStep ratio cols acc c = acc
        ∨ (c ≠ "" ∧ ∃ col ∈ cols, bmStep ratio cols acc c
            = (col, pairScore ratio (strLower c) (strLower col))) := by
      unfold bmStep
      split_ifs with h
      · exact Or.inl rfl
      · rcases foldlInner_attain (strLower c) cols acc with h2 | ⟨col, hcol, h2⟩
        · exact Or.inl h2
        · exact Or.inr ⟨h, col, hcol, h2⟩
    rcases ih (bmStep ratio cols acc c) with h | ⟨cand, hcand, hne, col, hcol, h⟩
    · rcases hstep with h2 | ⟨hne, col, hcol, h2⟩
      · apply Or.inl
        show List.foldl (bmStep ratio cols) (bmStep ratio cols acc c) cs = acc
        rw [h, h2]
      · refine Or.inr ⟨c, List.mem_cons_self c cs, hne, col, hcol, ?_⟩
        show List.foldl (bmStep ratio cols) (bmStep ratio cols acc c) cs
            = (col, pairScore ratio (strLower c) (strLower col))
        rw [h, h2]
    · exact Or.inr ⟨cand, List.mem_cons_of_mem c hcand, hne, col, hcol, h⟩

theorem lcpLen_le_left : ∀ (a b : List Char), lcpLen a b ≤ a.length := by
  intro a
  induction a with
  | nil => intro b; cases b <;> simp [lcpLen]
  | cons c cs ih =>
    intro b
    cases b with
    | nil => simp [lcpLen]
    | cons d ds =>
      unfold lcpLen
      split_ifs with h
      · have := ih ds
        simp
        omega
      · simp

theorem lcpLen_le_right : ∀ (a b : List Char), lcpLen a b ≤ b.length := by
  intro a
  induction a with
  | nil => intro b; cases b <;> simp [lcpLen]
  | cons c cs ih =>
    intro b
    cases b with
    | nil => simp [lcpLen]
    | cons d ds =>
      unfold lcpLen
      split_ifs with h
      · have := ih ds
        simp
        omega
      · simp

theorem seqRatioModel_bounds (a b : String) :
    (seqRatioModel a b).den ≠ 0
    ∧ 0 ≤ (seqRatioModel a b).toRat ∧ (seqRatioModel a b).toRat ≤ 1 := by
  unfold seqRatioModel
  split_ifs with h
  · refine ⟨one_ne_zero, ?_, ?_⟩ <;> rw [Frac.toRat_ofInt] <;> norm_num
  · have hpos : 0 < a.data.length + b.data.length := Nat.pos_of_ne_zero h
    refine ⟨?_, ?_, ?_⟩
    · show (1 * (a.data.length + b.data.length)) ≠ 0
      omega
    · rw [Frac.toRat_divNat (by omega), Frac.toRat_ofInt]
      positivity
    · rw [Frac.toRat_divNat (by omega), Frac.toRat_ofInt]
      rw [div_le_one (by exact_mod_cast hpos)]
      have h1 := lcpLen_le_left a.data b.data
      have h2 := lcpLen_le_right a.data b.data
      push_cast
      have h1' : ((lcpLen a.data b.data : ℚ)) ≤ (a.data.length : ℚ) := by exact_mod_cast h1
      have h2' : ((lcpLen a.data b.data : ℚ)) ≤ (b.data.length : ℚ) := by exact_mod_cast h2
      linarith

/-- C7 counterexample: the loop skips empty candidate names, so with the
available columns ["", "xy"] and candidates ["", "x"] the column "" is
case-insensitively equal to the candidate "", yet best_match_column
returns "xy", which is not case-insensitively equal to any candidate. -/
theorem claim_C7_counterexample :
    best_match_column seqRatioModel ["", "xy"] ["", "x"] (Frac.ofInt 50) = "xy"
    ∧ ("" : String) ∈ ([("" : String), "xy"] : List String)
    ∧ strLower "" = strLower ""
    ∧ ¬∃ c ∈ ([("" : String), "x"] : List String), strLower "xy" = strLower c := by decide

/-- C7 amended: for any [0,1]-valued similarity, whenever a NON-EMPTY
candidate is case-insensitively equal to some available column whose name
has fewer than 4000 characters, best_match_column returns either the
empty no-match sentinel or a column that is case-insensitively equal to
one of the candidates. -/
theorem claim_C7_exact_match (ratio : String → String → Frac)
    (hr : ∀ a b, (ratio a b).den ≠ 0 ∧ 0 ≤ (ratio a b).toRat ∧ (ratio a b).toRat ≤ 1)
    (cols cands : List String) (minScore : Frac)
    (eCol eCand : String) (hcol : eCol ∈ cols) (hcand : eCand ∈ cands) (hne : eCand ≠ "")
    (heq : strLower eCol = strLower eCand) (hlen : strLen eCol < 4000) :
    best_match_column ratio cols cands minScore = ""
    ∨ ∃ c ∈ cands, strLower (best_match_column ratio cols cands minScore) = strLower c := by
  by_cases hres : best_match_column ratio cols cands minScore = ""
  · exact Or.inl hres
  apply Or.inr
  have hrden : ∀ a b, (ratio a b).den ≠ 0 := fun a b => (hr a b).1
  have hcolsne : cols ≠ [] := by
    intro h
    subst h
    exact absurd hcol (by simp)
  unfold best_match_column at hres ⊢
  rw [if_neg hcolsne] at hres ⊢
  by_cases hms : minScore.ble (cands.foldl (bmStep ratio cols) ("", Frac.ofInt 0)).2 = true
  case neg =>
    rw [if_neg hms] at hres
    exact absurd rfl hres
  rw [if_pos hms] at hres ⊢
  rcases foldlOuter_attain cols cands ("", Frac.ofInt 0) with hat
    | ⟨cand, hcandm, hcne, col, hcolm, hat⟩
  · rw [hat] at hres
    exact absurd rfl hres
  · refine ⟨cand, hcandm, ?_⟩
    by_contra hcontra
    have hb1 : (cands.foldl (bmStep ratio cols) ("", Frac.ofInt 0)).1 = col := by rw [hat]
    have hb2 : (cands.foldl (bmStep ratio cols) ("", Frac.ofInt 0)).2
        = pairScore ratio (strLower cand) (strLower col) := by rw [hat]
    have hnecol : strLower col ≠ strLower cand := by
      rw [← hb1]
      exact hcontra
    have hle : (pairScore ratio (strLower cand) (strLower col)).toRat ≤ 160 :=
      pairScore_le_160 hr hnecol
    have hdom : (pairScore ratio (strLower eCand) (strLower eCol)).toRat
        ≤ ((cands.foldl (bmStep ratio cols) ("", Frac.ofInt 0)).2).toRat :=
      foldlOuter_dominates hrden cols cands ("", Frac.ofInt 0) one_ne_zero
        eCand hcand hne eCol hcol
    have hex : 200 - (strLen (strLower eCol) : ℚ) / 100
        ≤ (pairScore ratio (strLower eCand) (strLower eCol)).toRat :=
      pairScore_ge_exact hr heq
    have hlen2 : strLen (strLower eCol) = strLen eCol := by
      simp [strLen, strLower]
    have hlenq : (strLen eCol : ℚ) < 4000 := by exact_mod_cast hlen
    rw [hb2] at hdom
    rw [hlen2] at hex
    linarith

/-- Witness for C7 amended at a concrete exact match. -/
theorem claim_C7_exact_match_witness :
    best_match_column seqRatioModel ["Whats"] ["whats"] (Frac.ofInt 50) = ""
    ∨ ∃ c ∈ (["whats"] : List String),
        strLower (best_match_column seqRatioModel ["Whats"] ["whats"] (Frac.ofInt 50))
          = strLower c :=
  claim_C7_exact_match seqRatioModel seqRatioModel_bounds ["Whats"] ["whats"]
    (Frac.ofInt 50) "Whats" "whats" (by decide) (by decide) (by decide) (by decide) (by decide)

/-- C9 counterexample: on the abort path the whole original table is
returned as safe (here one row) but stats.safe_total stays at its
initialized 0, so safe_total does not equal the number of safe rows. -/
theorem claim_C9_counterexample :
    best_match_column seqRatioModel dfOC9.cols ["WhatsApp", "Whats", "Celular", "Phone"]
      (Frac.ofInt 50) = ""
    ∧ ((process_agendor_report seqRatioModel dfOC9 dfEC9).1).length = 1
    ∧ ((process_agendor_report seqRatioModel dfOC9 dfEC9).2.1).length = 0
    ∧ ((process_agendor_report seqRatioModel dfOC9 dfEC9).2.2).safe_total = 0
    ∧ ((process_agendor_report seqRatioModel dfOC9 dfEC9).2.2).manual_fix_needed = 0 := by
  refine ⟨by decide, ?_, ?_, ?_, ?_⟩ <;> rfl

/-- C9 amended: on the normal path the returned stats satisfy
safe_total = |safeRows| and manual_fix_needed = |manualFixRows|; on the
abort path (no phone-like column in either table) the whole original
table is returned as safe with an empty manual-fix set, but both
counters keep their initialized value 0. -/
theorem claim_C9_stats (ratio : String → String → Frac) (dfO dfE : PTable) :
    ((best_match_column ratio dfO.cols ["WhatsApp", "Whats", "Celular", "Phone"]
          (Frac.ofInt 50) = ""
       ∨ best_match_column ratio dfE.cols ["WhatsApp", "Whats", "Celular", "Phone"]
          (Frac.ofInt 50) = "") →
      ((process_agendor_report ratio dfO dfE).1 = dfO.rows
       ∧ (process_agendor_report ratio dfO dfE).2.1 = []
       ∧ ((process_agendor_report ratio dfO dfE).2.2).safe_total = 0
       ∧ ((process_agendor_report ratio dfO dfE).2.2).manual_fix_needed = 0))
    ∧ (¬(best_match_column ratio dfO.cols ["WhatsApp", "Whats", "Celular", "Phone"]
          (Frac.ofInt 50) = ""
       ∨ best_match_column ratio dfE.cols ["WhatsApp", "Whats", "Celular", "Phone"]
          (Frac.ofInt 50) = "") →
      (((process_agendor_report ratio dfO dfE).2.2).safe_total
          = ((process_agendor_report ratio dfO dfE).1).length
       ∧ ((process_agendor_report ratio dfO dfE).2.2).manual_fix_needed
          = ((process_agendor_report ratio dfO dfE).2.1).length)) := by
  constructor
  · intro habort
    unfold process_agendor_report
    rw [if_pos habort]
    exact ⟨rfl, rfl, rfl, rfl⟩
  · intro habort
    unfold process_agendor_report
    rw [if_neg habort]
    exact ⟨rfl, rfl⟩

/-- Witness for C9 amended on the abort path. -/
theorem claim_C9_stats_witness :
    (process_agendor_report seqRatioModel dfOC9 dfEC9).1 = dfOC9.rows
    ∧ (process_agendor_report seqRatioModel dfOC9 dfEC9).2.1 = []
    ∧ ((process_agendor_report seqRatioModel dfOC9 dfEC9).2.2).safe_total = 0
    ∧ ((process_agendor_report seqRatioModel dfOC9 dfEC9).2.2).manual_fix_needed = 0 :=
  (claim_C9_stats seqRatioModel dfOC9 dfEC9).1 (Or.inl (by decide))
